import Mathlib

/-!
Verification model of the cache-and-parse translation pipeline in
`src/src-tauri/src/lib.rs` (PDFRead backend).

Rust strings are modelled as `List Char` (`Str`); Rust byte indices are
handled explicitly through a UTF-8 byte encoding where the code operates on
bytes (`truncate_for_error`, `hash_source_text`).  Fallible operations
return `Except`/`Option`; a Rust panic is modelled as `none`.
-/

set_option maxRecDepth 40000

/-- Rust `String`/`&str`, modelled as its list of characters. -/
abbrev Str := List Char

/-- Convert a Lean string literal to the model type. -/
def str (s : String) : Str := s.toList

/-! ## UTF-8 byte encoding (Rust `str::as_bytes`, byte indices) -/

/-- UTF-8 encoding of one character, as its list of bytes. -/
def utf8Char (c : Char) : List Nat :=
  let n := c.toNat
  if n < 128 then [n]
  else if n < 2048 then [192 + n / 64, 128 + n % 64]
  else if n < 65536 then [224 + n / 4096, 128 + (n / 64) % 64, 128 + n % 64]
  else [240 + n / 262144, 128 + (n / 4096) % 64, 128 + (n / 64) % 64, 128 + n % 64]

/-- UTF-8 encoding of a string (Rust `s.as_bytes()`). -/
def utf8Bytes (s : Str) : List Nat := (s.map utf8Char).flatten

/-- Rust `s.len()`: the length of a string in bytes. -/
def byteLen (s : Str) : Nat := (utf8Bytes s).length

/-! ## SHA-256 (the `sha2` crate, used by `hash_source_text`) -/

/-- Truncation to a 32-bit word. -/
def w32 (n : Nat) : Nat := n % 4294967296

/-- 32-bit right rotation. -/
def rotr (n x : Nat) : Nat := w32 (x / 2 ^ n + x % 2 ^ n * 2 ^ (32 - n))

/-- 32-bit bitwise complement (operand assumed below `2^32`). -/
def not32 (x : Nat) : Nat := 4294967295 - x

/-- SHA-256 `Ch` function. -/
def shaCh (x y z : Nat) : Nat := Nat.xor (Nat.land x y) (Nat.land (not32 x) z)

/-- SHA-256 `Maj` function. -/
def shaMaj (x y z : Nat) : Nat :=
  Nat.xor (Nat.xor (Nat.land x y) (Nat.land x z)) (Nat.land y z)

/-- SHA-256 big sigma 0. -/
def bigSigma0 (x : Nat) : Nat := Nat.xor (rotr 2 x) (Nat.xor (rotr 13 x) (rotr 22 x))

/-- SHA-256 big sigma 1. -/
def bigSigma1 (x : Nat) : Nat := Nat.xor (rotr 6 x) (Nat.xor (rotr 11 x) (rotr 25 x))

/-- SHA-256 small sigma 0. -/
def smallSigma0 (x : Nat) : Nat := Nat.xor (rotr 7 x) (Nat.xor (rotr 18 x) (x / 2 ^ 3))

/-- SHA-256 small sigma 1. -/
def smallSigma1 (x : Nat) : Nat := Nat.xor (rotr 17 x) (Nat.xor (rotr 19 x) (x / 2 ^ 10))

/-- SHA-256 round constants. -/
def shaK : List Nat :=
  [1116352408, 1899447441, 3049323471, 3921009573, 961987163,
   1508970993, 2453635748, 2870763221, 3624381080, 310598401,
   607225278, 1426881987, 1925078388, 2162078206, 2614888103,
   3248222580, 3835390401, 4022224774, 264347078, 604807628,
   770255983, 1249150122, 1555081692, 1996064986, 2554220882,
   2821834349, 2952996808, 3210313671, 3336571891, 3584528711,
   113926993, 338241895, 666307205, 773529912, 1294757372,
   1396182291, 1695183700, 1986661051, 2177026350, 2456956037,
   2730485921, 2820302411, 3259730800, 3345764771, 3516065817,
   3600352804, 4094571909, 275423344, 430227734, 506948616,
   659060556, 883997877, 958139571, 1322822218, 1537002063,
   1747873779, 1955562222, 2024104815, 2227730452, 2361852424,
   2428436474, 2756734187, 3204031479, 3329325298]

/-- One step of message-schedule extension: append the next word. -/
def scheduleStep (ws : List Nat) : List Nat :=
  let l := ws.length
  ws ++ [w32 (smallSigma1 (ws.getD (l - 2) 0) + ws.getD (l - 7) 0 +
              smallSigma0 (ws.getD (l - 15) 0) + ws.getD (l - 16) 0)]

/-- Extend a 16-word block by `k` schedule words. -/
def scheduleExtend : Nat → List Nat → List Nat
  | 0, ws => ws
  | k + 1, ws => scheduleExtend k (scheduleStep ws)

/-- The eight-word SHA-256 working state. -/
structure Hash8 where
  a : Nat
  b : Nat
  c : Nat
  d : Nat
  e : Nat
  f : Nat
  g : Nat
  hh : Nat
deriving DecidableEq

/-- One SHA-256 compression round, for schedule word `w` and constant `k`. -/
def shaRound (st : Hash8) (wk : Nat × Nat) : Hash8 :=
  let t1 := w32 (st.hh + bigSigma1 st.e + shaCh st.e st.f st.g + wk.2 + wk.1)
  let t2 := w32 (bigSigma0 st.a + shaMaj st.a st.b st.c)
  ⟨w32 (t1 + t2), st.a, st.b, st.c, w32 (st.d + t1), st.e, st.f, st.g⟩

/-- Process one 16-word block. -/
def shaBlock (st : Hash8) (block : List Nat) : Hash8 :=
  let ws := scheduleExtend 48 block
  let r := (ws.zip shaK).foldl shaRound st
  ⟨w32 (st.a + r.a), w32 (st.b + r.b), w32 (st.c + r.c), w32 (st.d + r.d),
   w32 (st.e + r.e), w32 (st.f + r.f), w32 (st.g + r.g), w32 (st.hh + r.hh)⟩

/-- SHA-256 initial state. -/
def shaInit : Hash8 :=
  ⟨1779033703, 3144134277, 1013904242, 2773480762,
   1359893119, 2600822924, 528734635, 1541459225⟩

/-- SHA-256 padding of a byte message. -/
def shaPad (msg : List Nat) : List Nat :=
  let l := msg.length
  let k := (64 + 55 - l % 64) % 64
  let bits := 8 * l
  msg ++ [128] ++ List.replicate k 0 ++
    [bits / 2 ^ 56 % 256, bits / 2 ^ 48 % 256, bits / 2 ^ 40 % 256,
     bits / 2 ^ 32 % 256, bits / 2 ^ 24 % 256, bits / 2 ^ 16 % 256,
     bits / 2 ^ 8 % 256, bits % 256]

/-- Split a list into chunks of `n` elements (fuel-driven). -/
def chunksGo (n : Nat) : Nat → List Nat → List (List Nat)
  | 0, _ => []
  | _, [] => []
  | fuel + 1, l => l.take n :: chunksGo n fuel (l.drop n)

/-- Split a list into chunks of `n` elements. -/
def chunks (n : Nat) (l : List Nat) : List (List Nat) := chunksGo n l.length l

/-- Big-endian 32-bit word from four bytes. -/
def wordOfBytes (bs : List Nat) : Nat :=
  bs.getD 0 0 * 16777216 + bs.getD 1 0 * 65536 + bs.getD 2 0 * 256 + bs.getD 3 0

/-- Big-endian bytes of a 32-bit word. -/
def bytesOfWord (w : Nat) : List Nat :=
  [w / 16777216 % 256, w / 65536 % 256, w / 256 % 256, w % 256]

/-- SHA-256 digest of a byte message, as its 32 bytes. -/
def sha256Bytes (msg : List Nat) : List Nat :=
  let blocks := (chunks 64 (shaPad msg)).map (fun b => (chunks 4 b).map wordOfBytes)
  let st := blocks.foldl shaBlock shaInit
  ([st.a, st.b, st.c, st.d, st.e, st.f, st.g, st.hh].map bytesOfWord).flatten

/-- Lowercase hex digit. -/
def hexDigit (n : Nat) : Char :=
  if n < 10 then Char.ofNat (48 + n) else Char.ofNat (87 + n)

/-- Two lowercase hex digits of a byte (Rust `{:02x}`). -/
def byteHex (b : Nat) : List Char := [hexDigit (b / 16), hexDigit (b % 16)]

/-- Lowercase hex string of a byte list. -/
def bytesHex (bs : List Nat) : Str := (bs.map byteHex).flatten

/-- `hash_source_text` from the source: lowercase-hex SHA-256 of the UTF-8
bytes of `text`. -/
def hash_source_text (text : Str) : Str := bytesHex (sha256Bytes (utf8Bytes text))

example : hash_source_text (str "abc") =
    str "ba7816bf8f01cfea414140de5dae2223b00361a396177a9cb410ff61f20015ad" := by decide

example : hash_source_text (str "") =
    str "e3b0c44298fc1c149afbf4c8996fb92427ae41e4649b934ca495991b7852b855" := by decide

/-! ## Rust string operations (char-level model; found patterns are ASCII,
so Rust byte indices and model char indices denote the same positions) -/

/-- Rust `char::is_whitespace` (Unicode White_Space property). -/
def rustWs (c : Char) : Bool :=
  let n := c.toNat
  (9 ≤ n ∧ n ≤ 13) ∨ n = 32 ∨ n = 133 ∨ n = 160 ∨ n = 5760 ∨
  (8192 ≤ n ∧ n ≤ 8202) ∨ n = 8232 ∨ n = 8233 ∨ n = 8239 ∨ n = 8287 ∨ n = 12288

/-- Rust `str::trim`. -/
def rustTrim (s : Str) : Str :=
  ((s.dropWhile rustWs).reverse.dropWhile rustWs).reverse

/-- Rust `str::find` for a literal pattern: index of the first occurrence. -/
def findSub : Str → Nat → Str → Option Nat
  | [], i, pat => if pat.isPrefixOf ([] : Str) then some i else none
  | c :: t, i, pat =>
    if pat.isPrefixOf (c :: t) then some i else findSub t (i + 1) pat

/-- Rust `s.find(pat)`. -/
def sfind (s pat : Str) : Option Nat := findSub s 0 pat

/-- Rust `str::rfind` for a literal pattern: index of the last occurrence. -/
def rfindGo : Str → Nat → Option Nat → Str → Option Nat
  | [], i, best, pat => if pat.isPrefixOf ([] : Str) then some i else best
  | c :: t, i, best, pat =>
    rfindGo t (i + 1) (if pat.isPrefixOf (c :: t) then some i else best) pat

/-- Rust `s.rfind(pat)`. -/
def srfind (s pat : Str) : Option Nat := rfindGo s 0 none pat

/-- Opening curly brace character. -/
def braceO : Char := Char.ofNat 123

/-- Closing curly brace character. -/
def braceC : Char := Char.ofNat 125

/-- The shared markdown `json`-tagged code-block recovery used by both
`extract_json_array` and `extract_json_object` (lib.rs 364-372 and 744-752):
from the first occurrence of the `json` fence tag, the block end is the first
fence-plus-newline after the tag, or failing that the last fence of the text;
the interior is returned trimmed when the span is non-empty. -/
def taggedJsonBlock (trimmed : Str) : Option Str :=
  match findSub trimmed 0 (str "```json") with
  | some start =>
    let slice := trimmed.drop start
    match (sfind slice (str "```\n")).orElse (fun _ => srfind slice (str "```")) with
    | some e =>
      let jsonStart := start + 7
      let jsonEnd := start + e
      if jsonStart < jsonEnd then
        some (rustTrim ((trimmed.drop jsonStart).take (jsonEnd - jsonStart)))
      else none
    | none => none
  | none => none

/-- The generic code-block recovery of `extract_json_array` (lib.rs 375-385):
first fence anywhere, next fence after it, optional language-tag line
skipped. -/
def genericBlock (trimmed : Str) : Option Str :=
  match sfind trimmed (str "```") with
  | some start =>
    let afterTick := trimmed.drop (start + 3)
    match sfind afterTick (str "```") with
    | some e =>
      let blockContent := afterTick.take e
      match sfind blockContent ['\n'] with
      | some nl => some (rustTrim (blockContent.drop (nl + 1)))
      | none => some (rustTrim blockContent)
    | none => none
  | none => none

/-- `extract_json_array` from the source (lib.rs 355-397). -/
def extract_json_array (content : Str) : Str :=
  let trimmed := rustTrim content
  if trimmed.head? = some '[' then trimmed
  else
    match taggedJsonBlock trimmed with
    | some r => r
    | none =>
      match genericBlock trimmed with
      | some r => r
      | none =>
        match sfind trimmed ['['], srfind trimmed [']'] with
        | some s0, some e0 =>
          if s0 < e0 then (trimmed.drop s0).take (e0 - s0 + 1) else trimmed
        | _, _ => trimmed

/-- `extract_json_object` from the source (lib.rs 735-764); unlike the array
variant it has no generic (untagged) code-block step. -/
def extract_json_object (content : Str) : Str :=
  let trimmed := rustTrim content
  if trimmed.head? = some braceO then trimmed
  else
    match taggedJsonBlock trimmed with
    | some r => r
    | none =>
      match sfind trimmed [braceO], srfind trimmed [braceC] with
      | some s0, some e0 =>
        if s0 < e0 then (trimmed.drop s0).take (e0 - s0 + 1) else trimmed
      | _, _ => trimmed

/-- `truncate_for_error` byte-prefix: the characters covering exactly the
first `budget` UTF-8 bytes, or `none` when `budget` falls inside a character
(Rust byte slicing `&s[..budget]` panics there). -/
def utf8Take (budget : Nat) : Str → Option Str
  | [] => if budget = 0 then some [] else none
  | c :: t =>
    if budget = 0 then some []
    else
      let k := (utf8Char c).length
      if k ≤ budget then (utf8Take (budget - k) t).map (fun r => c :: r)
      else none

/-- `truncate_for_error` from the source (lib.rs 399-405): `none` models the
panic of `&s[..200]` when byte 200 is not a char boundary. -/
def truncate_for_error (s : Str) : Option Str :=
  if 200 < byteLen s then (utf8Take 200 s).map (fun p => p ++ str "...")
  else some s

/-- `extract_doc_id` from the source: `sid.split(':').next().unwrap_or(sid)`,
i.e. the prefix of `sid` up to the first `:`. -/
def extract_doc_id (sid : Str) : Str := sid.takeWhile (fun c => c ≠ ':')

/-- The `cache_key` closure of `openrouter_translate` (lib.rs 431-438):
`format!("{}|{}|{}|{}|{}", doc_id, sid, source_hash, model, code)`. -/
def cache_key (model lang sid text : Str) : Str :=
  extract_doc_id sid ++ '|' :: sid ++ '|' :: hash_source_text text ++
    '|' :: model ++ '|' :: lang

example : extract_json_array (str "[1, 2]") = str "[1, 2]" := by decide
example : extract_json_array (str "Sure! ```json\n[1]\n```") = str "[1]" := by decide
example : extract_json_array (str "text ```rust\n[1]\n``` x") = str "[1]" := by decide
example : extract_json_array (str "the answer is [1] ok") = str "[1]" := by decide
example : extract_json_array (str "no json at all") = str "no json at all" := by decide
example : extract_json_array (str "a ```json\nX``` b ``` c") = str "X``` b" := by decide
example : truncate_for_error (List.replicate 199 'a' ++ ['é', 'a']) = none := by decide
example : truncate_for_error (str "short") = some (str "short") := by decide
example : truncate_for_error (List.replicate 201 'a') =
    some (List.replicate 200 'a' ++ str "...") := by decide

/-! ## Data model structs (lib.rs 8-32) -/

/-- `TranslateSentence` from the source. -/
structure TranslateSentence where
  sid : Str
  text : Str
deriving DecidableEq

/-- `TranslationResult` from the source. -/
structure TranslationResult where
  sid : Str
  translation : Str
deriving DecidableEq

/-- `FlexibleTranslationResult` from the source: `translation` is optional
and fed by serde aliases `translation` / `translated_text` / `text` /
`translated`. -/
structure FlexibleTranslationResult where
  sid : Str
  translation : Option Str
deriving DecidableEq

/-- `TargetLanguage` from the source. -/
structure TargetLanguage where
  label : Str
  code : Str

/-! ## JSON values and a model of `serde_json` parsing -/

/-- A parsed JSON value.  Numbers keep their lexeme: the decoded structs never
read numeric values, only lexical validity matters. -/
inductive JVal where
  | jnull
  | jbool (b : Bool)
  | jnum (lex : Str)
  | jstr (s : Str)
  | jarr (items : List JVal)
  | jobj (fields : List (Str × JVal))

/-- JSON insignificant whitespace. -/
def jsonWs (c : Char) : Bool := c = ' ' ∨ c = '\t' ∨ c = '\n' ∨ c = '\r'

/-- Value of a hex digit character. -/
def hexVal (c : Char) : Option Nat :=
  let n := c.toNat
  if 48 ≤ n ∧ n ≤ 57 then some (n - 48)
  else if 97 ≤ n ∧ n ≤ 102 then some (n - 87)
  else if 65 ≤ n ∧ n ≤ 70 then some (n - 55)
  else none

/-- Value of four hex digit characters, if present. -/
def hex4 : Str → Option Nat
  | a :: b :: c :: d :: _ =>
    match hexVal a, hexVal b, hexVal c, hexVal d with
    | some a', some b', some c', some d' => some (a' * 4096 + b' * 256 + c' * 16 + d')
    | _, _, _, _ => none
  | _ => none

/-- Parse the body of a JSON string (after the opening quote), returning the
decoded string and the remaining input. -/
def parseStringBody : Nat → Str → Except Str (Str × Str)
  | 0, _ => .error (str "string fuel exhausted")
  | _, [] => .error (str "unterminated string")
  | fuel + 1, c :: t =>
    if c = '"' then .ok ([], t)
    else if c = '\\' then
      match t with
      | [] => .error (str "unterminated escape")
      | e :: t2 =>
        if e = '"' ∨ e = '\\' ∨ e = '/' then
          (parseStringBody fuel t2).map (fun p => (e :: p.1, p.2))
        else if e = 'b' then (parseStringBody fuel t2).map (fun p => (Char.ofNat 8 :: p.1, p.2))
        else if e = 't' then (parseStringBody fuel t2).map (fun p => ('\t' :: p.1, p.2))
        else if e = 'n' then (parseStringBody fuel t2).map (fun p => ('\n' :: p.1, p.2))
        else if e = 'f' then (parseStringBody fuel t2).map (fun p => (Char.ofNat 12 :: p.1, p.2))
        else if e = 'r' then (parseStringBody fuel t2).map (fun p => ('\r' :: p.1, p.2))
        else if e = 'u' then
          match hex4 t2 with
          | none => .error (str "invalid unicode escape")
          | some n =>
            if 55296 ≤ n ∧ n < 56320 then
              match t2.drop 4 with
              | '\\' :: 'u' :: t3 =>
                match hex4 t3 with
                | some m =>
                  if 56320 ≤ m ∧ m < 57344 then
                    (parseStringBody fuel (t3.drop 4)).map
                      (fun p => (Char.ofNat (65536 + (n - 55296) * 1024 + (m - 56320)) :: p.1, p.2))
                  else .error (str "invalid surrogate pair")
                | none => .error (str "invalid unicode escape")
              | _ => .error (str "unexpected end of hex escape")
            else if 56320 ≤ n ∧ n < 57344 then .error (str "lone trailing surrogate")
            else (parseStringBody fuel (t2.drop 4)).map (fun p => (Char.ofNat n :: p.1, p.2))
        else .error (str "invalid escape")
    else if c.toNat < 32 then .error (str "control character in string")
    else (parseStringBody fuel t).map (fun p => (c :: p.1, p.2))

/-- Lex the exponent/end of a JSON number. -/
def lexNumExp (acc : Str) (s : Str) : Except Str (Str × Str) :=
  match s with
  | e :: t =>
    if e = 'e' ∨ e = 'E' then
      let sgn : Str := match t with
        | '+' :: _ => ['+']
        | '-' :: _ => ['-']
        | _ => []
      let t2 := t.drop sgn.length
      let ds := t2.takeWhile Char.isDigit
      if ds.isEmpty then .error (str "invalid number")
      else .ok (acc ++ e :: sgn ++ ds, t2.drop ds.length)
    else .ok (acc, e :: t)
  | [] => .ok (acc, [])

/-- Lex the fraction/exponent/end of a JSON number. -/
def lexNumFrac (acc : Str) (s : Str) : Except Str (Str × Str) :=
  match s with
  | '.' :: t =>
    let ds := t.takeWhile Char.isDigit
    if ds.isEmpty then .error (str "invalid number")
    else lexNumExp (acc ++ '.' :: ds) (t.drop ds.length)
  | _ => lexNumExp acc s

/-- Lex a JSON number lexeme (input starts with `-` or a digit). -/
def lexNumber (s : Str) : Except Str (Str × Str) :=
  let p := match s with
    | '-' :: t => ((['-'] : Str), t)
    | _ => (([] : Str), s)
  match p.2 with
  | c :: t =>
    if c = '0' then lexNumFrac (p.1 ++ ['0']) t
    else if c.isDigit then
      let ds := t.takeWhile Char.isDigit
      lexNumFrac (p.1 ++ c :: ds) (t.drop ds.length)
    else .error (str "invalid number")
  | [] => .error (str "invalid number")

mutual

/-- Parse one JSON value; returns the value and remaining input. -/
def parseValue : Nat → Str → Except Str (JVal × Str)
  | 0, _ => .error (str "fuel exhausted")
  | fuel + 1, s =>
    let s := s.dropWhile jsonWs
    match s with
    | [] => .error (str "unexpected end of input")
    | c :: t =>
      if c = 'n' then
        if (str "ull").isPrefixOf t then .ok (.jnull, t.drop 3)
        else .error (str "invalid literal")
      else if c = 't' then
        if (str "rue").isPrefixOf t then .ok (.jbool true, t.drop 3)
        else .error (str "invalid literal")
      else if c = 'f' then
        if (str "alse").isPrefixOf t then .ok (.jbool false, t.drop 4)
        else .error (str "invalid literal")
      else if c = '"' then
        (parseStringBody (t.length + 1) t).map (fun p => (.jstr p.1, p.2))
      else if c = '[' then parseArrayStart fuel t
      else if c = braceO then parseObjStart fuel t
      else if c = '-' ∨ c.isDigit then (lexNumber s).map (fun p => (.jnum p.1, p.2))
      else .error (str "expected value")

/-- Parse the items of a JSON array, right after the opening bracket. -/
def parseArrayStart : Nat → Str → Except Str (JVal × Str)
  | 0, _ => .error (str "fuel exhausted")
  | fuel + 1, s =>
    let s := s.dropWhile jsonWs
    match s with
    | ']' :: r => .ok (.jarr [], r)
    | _ => parseArrayLoop fuel s []

/-- Parse array items from the position of an item onwards. -/
def parseArrayLoop : Nat → Str → List JVal → Except Str (JVal × Str)
  | 0, _, _ => .error (str "fuel exhausted")
  | fuel + 1, s, acc =>
    match parseValue fuel s with
    | .error e => .error e
    | .ok (v, r) =>
      let r := r.dropWhile jsonWs
      match r with
      | ',' :: r2 => parseArrayLoop fuel r2 (acc ++ [v])
      | ']' :: r2 => .ok (.jarr (acc ++ [v]), r2)
      | _ => .error (str "expected comma or bracket")

/-- Parse the members of a JSON object, right after the opening brace. -/
def parseObjStart : Nat → Str → Except Str (JVal × Str)
  | 0, _ => .error (str "fuel exhausted")
  | fuel + 1, s =>
    let s := s.dropWhile jsonWs
    match s with
    | c :: r =>
      if c = braceC then .ok (.jobj [], r)
      else parseObjLoop fuel (c :: r) []
    | [] => .error (str "unexpected end of input")

/-- Parse object members from the position of a key onwards. -/
def parseObjLoop : Nat → Str → List (Str × JVal) → Except Str (JVal × Str)
  | 0, _, _ => .error (str "fuel exhausted")
  | fuel + 1, s, acc =>
    let s := s.dropWhile jsonWs
    match s with
    | '"' :: r =>
      match parseStringBody (r.length + 1) r with
      | .error e => .error e
      | .ok (k, r2) =>
        match r2.dropWhile jsonWs with
        | ':' :: r3 =>
          match parseValue fuel r3 with
          | .error e => .error e
          | .ok (v, r4) =>
            match r4.dropWhile jsonWs with
            | ',' :: r5 => parseObjLoop fuel r5 (acc ++ [(k, v)])
            | c :: r5 =>
              if c = braceC then .ok (.jobj (acc ++ [(k, v)]), r5)
              else .error (str "expected comma or brace")
            | [] => .error (str "unexpected end of input")
        | _ => .error (str "expected colon")
    | _ => .error (str "key must be a string")

end

/-- `serde_json::from_str` front end: whole input must be one JSON value with
only trailing whitespace. -/
def parseJsonText (s : Str) : Except Str JVal :=
  match parseValue (2 * s.length + 8) s with
  | .error e => .error e
  | .ok (v, rest) =>
    if (rest.dropWhile jsonWs).isEmpty then .ok v
    else .error (str "trailing characters")

/-- The serde field names feeding `FlexibleTranslationResult.translation`
(the field name and its three `alias` attributes, lib.rs 30). -/
def translationAliases : List Str :=
  [str "translation", str "translated_text", str "text", str "translated"]

/-- serde decoding of one `FlexibleTranslationResult` from object fields:
`sid` is required and must be a string; the translation field may arrive
under any alias, must be a string or null, and duplicates (also via aliases)
are errors; unknown fields are ignored. -/
def decodeFlexGo : List (Str × JVal) → Option Str → Option (Option Str) →
    Except Str FlexibleTranslationResult
  | [], sid?, tr? =>
    match sid? with
    | some sid => .ok ⟨sid, tr?.getD none⟩
    | none => .error (str "missing field sid")
  | (k, v) :: rest, sid?, tr? =>
    if k = str "sid" then
      match sid? with
      | some _ => .error (str "duplicate field sid")
      | none =>
        match v with
        | .jstr s => decodeFlexGo rest (some s) tr?
        | _ => .error (str "invalid type for field sid")
    else if k ∈ translationAliases then
      match tr? with
      | some _ => .error (str "duplicate field translation")
      | none =>
        match v with
        | .jstr s => decodeFlexGo rest sid? (some (some s))
        | .jnull => decodeFlexGo rest sid? (some none)
        | _ => .error (str "invalid type for field translation")
    else decodeFlexGo rest sid? tr?

/-- serde decoding of one `FlexibleTranslationResult` from a JSON value. -/
def decodeFlexible (j : JVal) : Except Str FlexibleTranslationResult :=
  match j with
  | .jobj fields => decodeFlexGo fields none none
  | _ => .error (str "expected a JSON object")

/-- serde decoding of `Vec<FlexibleTranslationResult>`. -/
def decodeFlexibleArray (j : JVal) : Except Str (List FlexibleTranslationResult) :=
  match j with
  | .jarr items => items.mapM decodeFlexible
  | _ => .error (str "expected a JSON array")

/-- `parse_translation_json` from the source (lib.rs 333-353): extract, decode
flexibly, drop records without a translation.  `none` models the panic of
`truncate_for_error` (reachable on the error path only). -/
def parse_translation_json (content : Str) :
    Option (Except Str (List TranslationResult)) :=
  let jsonContent := extract_json_array content
  let parsed : Except Str (List FlexibleTranslationResult) :=
    match parseJsonText jsonContent with
    | .error e => .error e
    | .ok v => decodeFlexibleArray v
  match parsed with
  | .ok flex =>
    some (.ok (flex.filterMap (fun it => it.translation.map (fun t => ⟨it.sid, t⟩))))
  | .error e =>
    match truncate_for_error jsonContent with
    | some snip => some (.error (e ++ str " (content: " ++ snip ++ str ")"))
    | none => none

instance {ε α : Type} [DecidableEq ε] [DecidableEq α] : DecidableEq (Except ε α) :=
  fun x y =>
    match x, y with
    | .ok a, .ok b => if h : a = b then isTrue (by rw [h]) else isFalse (by simp [h])
    | .error a, .error b => if h : a = b then isTrue (by rw [h]) else isFalse (by simp [h])
    | .ok _, .error _ => isFalse (by simp)
    | .error _, .ok _ => isFalse (by simp)

example : parse_translation_json (str "[\x7b\"sid\":\"a\",\"translation\":\"x\"\x7d]") =
    some (.ok [⟨str "a", str "x"⟩]) := by decide

example : parse_translation_json (str "[\x7b\"sid\":\"a\",\"translated_text\":\"x\"\x7d]") =
    some (.ok [⟨str "a", str "x"⟩]) := by decide

example : parse_translation_json (str "[\x7b\"sid\":\"a\"\x7d]") = some (.ok []) := by decide

example : (parse_translation_json (str "no json here")).map (fun r => r.isOk) =
    some false := by decide

example : parse_translation_json ('[' :: (List.replicate 198 'a' ++ ['é'])) = none := by decide

example : parse_translation_json
    (str "Sure! ```json\n[\x7b\"sid\":\"a\",\"translation\":\"x\"\x7d]\n```") =
    some (.ok [⟨str "a", str "x"⟩]) := by decide

/-! ## Maps (`HashMap<String, String>`), observed through get/insert -/

/-- Association-list model of a string map. -/
abbrev SMap := List (Str × Str)

/-- `HashMap::get`. -/
def alistGet (m : SMap) (k : Str) : Option Str :=
  (m.find? (fun p => p.1 == k)).map (fun p => p.2)

/-- `HashMap::insert` (overwrites an existing binding). -/
def alistInsert : SMap → Str → Str → SMap
  | [], k, v => [(k, v)]
  | p :: t, k, v => if p.1 == k then (k, v) :: t else p :: alistInsert t k v

/-! ## Prompt construction (lib.rs 179-230, 463-468) -/

/-- `build_system_prompt` from the source. -/
def build_system_prompt : Str :=
  str "You are a translation engine. Translate into the specified target language. Output STRICT JSON ONLY. No markdown, no explanations, no extra text."

/-- One character under `serde_json` string escaping. -/
def jsonEscapeChar (c : Char) : Str :=
  if c = '"' then ['\\', '"']
  else if c = '\\' then ['\\', '\\']
  else if c.toNat = 8 then ['\\', 'b']
  else if c.toNat = 9 then ['\\', 't']
  else if c.toNat = 10 then ['\\', 'n']
  else if c.toNat = 12 then ['\\', 'f']
  else if c.toNat = 13 then ['\\', 'r']
  else if c.toNat < 32 then ['\\', 'u', '0', '0', hexDigit (c.toNat / 16), hexDigit (c.toNat % 16)]
  else [c]

/-- `serde_json` encoding of a string. -/
def encodeJsonStr (s : Str) : Str := '"' :: (s.map jsonEscapeChar).flatten ++ ['"']

/-- `serde_json::to_string` of one `TranslateSentence` (fields in declaration
order). -/
def encodeSentence (s : TranslateSentence) : Str :=
  braceO :: str "\"sid\":" ++ encodeJsonStr s.sid ++ str ",\"text\":" ++
    encodeJsonStr s.text ++ [braceC]

/-- `serde_json::to_string` of `Vec<TranslateSentence>` (this serialization
never fails, so the source's `unwrap_or("[]")` branch is dead). -/
def encodeSentences (l : List TranslateSentence) : Str :=
  '[' :: List.intercalate [','] (l.map encodeSentence) ++ [']']

/-- `build_user_prompt` from the source. -/
def build_user_prompt (tl : TargetLanguage) (sentences : List TranslateSentence) : Str :=
  str "Target language: " ++ tl.label ++ str " (" ++ tl.code ++
    str ")\nTranslation style: faithful, clear, readable\nInput JSON: " ++
    encodeSentences sentences

/-- The stricter retry prompt built inline in `openrouter_translate`
(lib.rs 463-468). -/
def build_strict_user_prompt (tl : TargetLanguage) (missing : List TranslateSentence) : Str :=
  str "Return ONLY this JSON array format with no extra text. Target language: " ++
    tl.label ++ str " (" ++ tl.code ++ str ")\nInput JSON: " ++ encodeSentences missing

/-! ## The translation orchestrator `openrouter_translate` (lib.rs 418-499)

The surrounding I/O is an explicit environment: what `load_cache`,
`load_openrouter_key`, `save_cache` and each successive remote request
return.  The outcome records the call result plus an I/O trace (number of
loads/saves, the request prompts issued, the cache passed to `save_cache`). -/

/-- The I/O environment of one `openrouter_translate` invocation. -/
structure Env where
  cacheLoad : Except Str SMap
  keyLoad : Except Str Str
  responses : Nat → Except Str Str
  saveResult : Except Str Unit

/-- Result of a call: normal return, error return, or a Rust panic. -/
inductive CallResult where
  | ok (rs : List TranslationResult)
  | err (e : Str)
  | panic
deriving DecidableEq

/-- Observable outcome of one `openrouter_translate` invocation. -/
structure TranslateOutcome where
  result : CallResult
  requests : List (Str × Str)
  cacheLoads : Nat
  keyLoads : Nat
  saves : Nat
  savedCache : Option SMap
  finalCache : Option SMap
  finalResults : SMap
deriving DecidableEq

/-- The hit/miss partition loop of `openrouter_translate` (lib.rs 443-452):
returns the `results` map fed by cache hits and the `missing` list. -/
def cacheSplit (cache : SMap) (key : Str → Str → Str) :
    List TranslateSentence → SMap → SMap × List TranslateSentence
  | [], results => (results, [])
  | s :: rest, results =>
    match alistGet cache (key s.sid s.text) with
    | some v => cacheSplit cache key rest (alistInsert results s.sid v)
    | none =>
      let p := cacheSplit cache key rest results
      (p.1, s :: p.2)

/-- The source text used when caching a decoded result: the text of the first
missing sentence with the same id, or `""` (lib.rs 475-479). -/
def matchText (missing : List TranslateSentence) (sid : Str) : Str :=
  ((missing.find? (fun s => s.sid == sid)).map (fun s => s.text)).getD []

/-- The write-back loop of `openrouter_translate` (lib.rs 474-484): each
decoded item is inserted into the cache (keyed by its id and the matching
missing text) and into the results map. -/
def applyTranslations (model code : Str) (missing : List TranslateSentence) :
    List TranslationResult → SMap → SMap → SMap × SMap
  | [], cache, results => (cache, results)
  | it :: rest, cache, results =>
    applyTranslations model code missing rest
      (alistInsert cache (cache_key model code it.sid (matchText missing it.sid)) it.translation)
      (alistInsert results it.sid it.translation)

/-- The output-assembly loop of `openrouter_translate` (lib.rs 488-496). -/
def assembleOutput (results : SMap) : List TranslateSentence → List TranslationResult
  | [] => []
  | s :: rest =>
    match alistGet results s.sid with
    | some v => ⟨s.sid, v⟩ :: assembleOutput results rest
    | none => assembleOutput results rest

/-- The tail of `openrouter_translate` after a successful decode
(lib.rs 474-498): write back, save the cache, assemble the output. -/
def translateFinish (model : Str) (tl : TargetLanguage)
    (sentences missing : List TranslateSentence) (cache results : SMap)
    (env : Env) (ts : List TranslationResult) (reqs : List (Str × Str)) :
    TranslateOutcome :=
  let p := applyTranslations model tl.code missing ts cache results
  match env.saveResult with
  | .error e =>
    { result := .err e, requests := reqs, cacheLoads := 1, keyLoads := 1,
      saves := 1, savedCache := some p.1, finalCache := none, finalResults := p.2 }
  | .ok _ =>
    { result := .ok (assembleOutput p.2 sentences), requests := reqs,
      cacheLoads := 1, keyLoads := 1, saves := 1, savedCache := some p.1,
      finalCache := some p.1, finalResults := p.2 }

/-- `openrouter_translate` from the source (lib.rs 418-499).  `temperature`
is passed through to the remote request opaquely and does not influence the
modelled control flow, so it is omitted. -/
def openrouter_translate (model : Str) (tl : TargetLanguage)
    (sentences : List TranslateSentence) (env : Env) : TranslateOutcome :=
  if sentences.isEmpty then
    { result := .ok [], requests := [], cacheLoads := 0, keyLoads := 0,
      saves := 0, savedCache := none, finalCache := none, finalResults := [] }
  else
    match env.cacheLoad with
    | .error e =>
      { result := .err e, requests := [], cacheLoads := 1, keyLoads := 0,
        saves := 0, savedCache := none, finalCache := none, finalResults := [] }
    | .ok cache =>
      let p := cacheSplit cache (cache_key model tl.code) sentences []
      let results := p.1
      let missing := p.2
      if missing.isEmpty then
        { result := .ok (assembleOutput results sentences), requests := [],
          cacheLoads := 1, keyLoads := 0, saves := 0, savedCache := none,
          finalCache := some cache, finalResults := results }
      else
        match env.keyLoad with
        | .error e =>
          { result := .err e, requests := [], cacheLoads := 1, keyLoads := 1,
            saves := 0, savedCache := none, finalCache := none, finalResults := results }
        | .ok _ =>
          let sys := build_system_prompt
          let up := build_user_prompt tl missing
          match env.responses 0 with
          | .error e =>
            { result := .err e, requests := [(sys, up)], cacheLoads := 1,
              keyLoads := 1, saves := 0, savedCache := none, finalCache := none,
              finalResults := results }
          | .ok content =>
            match parse_translation_json content with
            | some (.ok ts) =>
              translateFinish model tl sentences missing cache results env ts [(sys, up)]
            | none =>
              { result := .panic, requests := [(sys, up)], cacheLoads := 1,
                keyLoads := 1, saves := 0, savedCache := none, finalCache := none,
                finalResults := results }
            | some (.error _) =>
              let sup := build_strict_user_prompt tl missing
              match env.responses 1 with
              | .error e =>
                { result := .err e, requests := [(sys, up), (sys, sup)],
                  cacheLoads := 1, keyLoads := 1, saves := 0, savedCache := none,
                  finalCache := none, finalResults := results }
              | .ok content2 =>
                match parse_translation_json content2 with
                | some (.ok ts) =>
                  translateFinish model tl sentences missing cache results env ts
                    [(sys, up), (sys, sup)]
                | some (.error e2) =>
                  { result := .err (str "Failed to parse OpenRouter JSON: " ++ e2),
                    requests := [(sys, up), (sys, sup)], cacheLoads := 1,
                    keyLoads := 1, saves := 0, savedCache := none, finalCache := none,
                    finalResults := results }
                | none =>
                  { result := .panic, requests := [(sys, up), (sys, sup)],
                    cacheLoads := 1, keyLoads := 1, saves := 0, savedCache := none,
                    finalCache := none, finalResults := results }

/-! ## Concrete fixtures used by counterexamples and witnesses -/

/-- A concrete target language. -/
def enLang : TargetLanguage := ⟨str "English", str "en"⟩

/-- A remote reply translating sentence id `a` to `v`. -/
def respA : Str := str "[\x7b\"sid\":\"a\",\"translation\":\"v\"\x7d]"

/-- A remote reply translating sentence id `b` to `v`. -/
def respB : Str := str "[\x7b\"sid\":\"b\",\"translation\":\"v\"\x7d]"

/-- An environment where every I/O step succeeds and every remote request is
answered with `resp`. -/
def envOk (cache : SMap) (resp : Str) : Env :=
  ⟨.ok cache, .ok (str "k"), fun _ => .ok resp, .ok ()⟩

/-- Two sentences sharing the id `a` with different texts. -/
def dupSentences : List TranslateSentence :=
  [⟨str "a", str "t1"⟩, ⟨str "a", str "t2"⟩]

example :
    (openrouter_translate (str "m") enLang dupSentences (envOk [] respA)).result =
      .ok [⟨str "a", str "v"⟩, ⟨str "a", str "v"⟩] := by decide

example :
    (openrouter_translate (str "m") enLang dupSentences
      (envOk ((openrouter_translate (str "m") enLang dupSentences
        (envOk [] respA)).finalCache.getD []) respA)).requests.length = 1 := by decide

example :
    (openrouter_translate (str "m") enLang [⟨str "a", str "t"⟩]
      ⟨.ok [], .ok (str "k"), fun _ => .ok respA, .error (str "disk full")⟩).result =
      .err (str "disk full") := by decide

example :
    alistGet ((openrouter_translate (str "m") enLang [⟨str "a", str "t"⟩]
      (envOk [] respB)).savedCache.getD [])
      (cache_key (str "m") (str "en") (str "b") []) = some (str "v") := by decide

example :
    (openrouter_translate (str "m") enLang [] (envOk [] respA)) =
      { result := .ok [], requests := [], cacheLoads := 0, keyLoads := 0,
        saves := 0, savedCache := none, finalCache := none, finalResults := [] } := by decide

/-! ## C9: empty-input short circuit -/

/-- C9: for the empty sentence list, `openrouter_translate` returns the empty
result list and performs no I/O: no cache load, no credential load, no remote
request, and no cache save. -/
theorem translate_empty_input (model : Str) (tl : TargetLanguage) (env : Env) :
    openrouter_translate model tl [] env =
      { result := .ok [], requests := [], cacheLoads := 0, keyLoads := 0,
        saves := 0, savedCache := none, finalCache := none, finalResults := [] } := rfl

/-! ## C10 and C5: the `truncate_for_error` byte-boundary panic -/

/-- C10: contrary to the claim, `truncate_for_error` does not return on every
input: on a 202-byte string whose 200th byte falls inside the two-byte
character `é`, the slice `&s[..200]` does not land on a character boundary
and the function panics (modelled as `none`). -/
theorem truncate_for_error_panics_on_boundary :
    truncate_for_error (List.replicate 199 'a' ++ ['é', 'a']) = none := by decide

/-- C5: contrary to the claim, on a 201-byte extracted text that is not a
valid JSON array and whose 200th byte falls inside a two-byte character, the
decoder does not fail with a ParseError: building the diagnostic snippet
panics (modelled as `none`). -/
theorem parse_translation_json_panics_on_boundary :
    parse_translation_json ('[' :: (List.replicate 198 'a' ++ ['é'])) = none := by decide

/-! ## C6: fingerprint shape, purity and sensitivity -/

/-- The five fingerprint components joined with `|`, as described by the
spec: `scope | id | sha256(text) | model | targetLanguageCode`. -/
def fingerprintJoin (scope sid digest model lang : Str) : Str :=
  scope ++ '|' :: sid ++ '|' :: digest ++ '|' :: model ++ '|' :: lang

theorem fingerprintJoin_at1 (a b c d e : Str) :
    fingerprintJoin a b c d e = a ++ ('|' :: b ++ '|' :: c ++ '|' :: d ++ '|' :: e) := by
  simp [fingerprintJoin]

theorem fingerprintJoin_at2 (a b c d e : Str) :
    fingerprintJoin a b c d e =
      (a ++ ['|']) ++ (b ++ ('|' :: c ++ '|' :: d ++ '|' :: e)) := by
  simp [fingerprintJoin]

theorem fingerprintJoin_at3 (a b c d e : Str) :
    fingerprintJoin a b c d e =
      (a ++ '|' :: b ++ ['|']) ++ (c ++ ('|' :: d ++ '|' :: e)) := by
  simp [fingerprintJoin]

theorem fingerprintJoin_at4 (a b c d e : Str) :
    fingerprintJoin a b c d e =
      (a ++ '|' :: b ++ '|' :: c ++ ['|']) ++ (d ++ ('|' :: e)) := by
  simp [fingerprintJoin]

theorem fingerprintJoin_at5 (a b c d e : Str) :
    fingerprintJoin a b c d e =
      (a ++ '|' :: b ++ '|' :: c ++ '|' :: d ++ ['|']) ++ e := by
  simp [fingerprintJoin]

/-- C6: the cache key is exactly the scope (the id's prefix up to the first
`:`), the id, the sha256 hex digest of the text, the model, and the
target-language code joined by `|`; the function is pure (equal inputs give
equal keys); and changing any single one of the five joined components
changes the key. -/
theorem cache_key_shape_pure_sensitive :
    (∀ model lang sid text, cache_key model lang sid text =
        fingerprintJoin (extract_doc_id sid) sid (hash_source_text text) model lang)
  ∧ (∀ m m' l l' s s' t t', m = m' → l = l' → s = s' → t = t' →
        cache_key m l s t = cache_key m' l' s' t')
  ∧ (∀ a a' b c d e, a ≠ a' → fingerprintJoin a b c d e ≠ fingerprintJoin a' b c d e)
  ∧ (∀ a b b' c d e, b ≠ b' → fingerprintJoin a b c d e ≠ fingerprintJoin a b' c d e)
  ∧ (∀ a b c c' d e, c ≠ c' → fingerprintJoin a b c d e ≠ fingerprintJoin a b c' d e)
  ∧ (∀ a b c d d' e, d ≠ d' → fingerprintJoin a b c d e ≠ fingerprintJoin a b c d' e)
  ∧ (∀ a b c d e e', e ≠ e' → fingerprintJoin a b c d e ≠ fingerprintJoin a b c d e') := by
  refine ⟨fun model lang sid text => rfl,
    fun m m' l l' s s' t t' hm hl hs ht => by rw [hm, hl, hs, ht],
    fun a a' b c d e hne h => hne ?_,
    fun a b b' c d e hne h => hne ?_,
    fun a b c c' d e hne h => hne ?_,
    fun a b c d d' e hne h => hne ?_,
    fun a b c d e e' hne h => hne ?_⟩
  · rw [fingerprintJoin_at1 a, fingerprintJoin_at1 a'] at h
    exact List.append_cancel_right h
  · rw [fingerprintJoin_at2 a b, fingerprintJoin_at2 a b'] at h
    exact List.append_cancel_right (List.append_cancel_left h)
  · rw [fingerprintJoin_at3 a b c, fingerprintJoin_at3 a b c'] at h
    exact List.append_cancel_right (List.append_cancel_left h)
  · rw [fingerprintJoin_at4 a b c d, fingerprintJoin_at4 a b c d'] at h
    exact List.append_cancel_right (List.append_cancel_left h)
  · rw [fingerprintJoin_at5 a b c d e, fingerprintJoin_at5 a b c d e'] at h
    exact List.append_cancel_left h

/-- Witness for C6 at concrete components. -/
theorem cache_key_shape_pure_sensitive_witness :
    cache_key (str "m") (str "en") (str "d:1") (str "t") =
      fingerprintJoin (str "d") (str "d:1") (hash_source_text (str "t")) (str "m") (str "en")
  ∧ fingerprintJoin (str "a") (str "b") (str "c") (str "d") (str "e") ≠
      fingerprintJoin (str "x") (str "b") (str "c") (str "d") (str "e")
  ∧ fingerprintJoin (str "a") (str "b") (str "c") (str "d") (str "e") ≠
      fingerprintJoin (str "a") (str "x") (str "c") (str "d") (str "e")
  ∧ fingerprintJoin (str "a") (str "b") (str "c") (str "d") (str "e") ≠
      fingerprintJoin (str "a") (str "b") (str "x") (str "d") (str "e")
  ∧ fingerprintJoin (str "a") (str "b") (str "c") (str "d") (str "e") ≠
      fingerprintJoin (str "a") (str "b") (str "c") (str "x") (str "e")
  ∧ fingerprintJoin (str "a") (str "b") (str "c") (str "d") (str "e") ≠
      fingerprintJoin (str "a") (str "b") (str "c") (str "d") (str "x") := by
  refine ⟨?_, ?_, ?_, ?_, ?_, ?_⟩
  · exact cache_key_shape_pure_sensitive.1 (str "m") (str "en") (str "d:1") (str "t")
  · exact cache_key_shape_pure_sensitive.2.2.1 (str "a") (str "x") (str "b") (str "c")
      (str "d") (str "e") (by decide)
  · exact cache_key_shape_pure_sensitive.2.2.2.1 (str "a") (str "b") (str "x") (str "c")
      (str "d") (str "e") (by decide)
  · exact cache_key_shape_pure_sensitive.2.2.2.2.1 (str "a") (str "b") (str "c") (str "x")
      (str "d") (str "e") (by decide)
  · exact cache_key_shape_pure_sensitive.2.2.2.2.2.1 (str "a") (str "b") (str "c") (str "d")
      (str "x") (str "e") (by decide)
  · exact cache_key_shape_pure_sensitive.2.2.2.2.2.2 (str "a") (str "b") (str "c") (str "d")
      (str "e") (str "x") (by decide)

/-! ## C4: the Response Extractor algorithm -/

/-- The tagged-fence step exactly as the claim words it: the interior from
the opening tag to the first closing fence after the tag, trimmed. -/
def claimedTagged (trimmed : Str) : Option Str :=
  match findSub trimmed 0 (str "```json") with
  | some start =>
    let afterTag := trimmed.drop (start + 7)
    match sfind afterTag (str "```") with
    | some e => some (rustTrim (afterTag.take e))
    | none => none
  | none => none

/-- The span step: from the first opening delimiter to the last closing
delimiter. -/
def spanStrategy (openD closeD : Char) (trimmed : Str) : Option Str :=
  match sfind trimmed [openD], srfind trimmed [closeD] with
  | some s0, some e0 =>
    if s0 < e0 then some ((trimmed.drop s0).take (e0 - s0 + 1)) else none
  | _, _ => none

/-- Extraction as described by the claim, array mode and object mode alike:
(1) leading delimiter, (2) tagged fence using the first closing fence after
the tag, else the first generic fence when no tagged fence exists,
(3) first-opening-to-last-closing span, (4) the trimmed text. -/
def extract_json_claimed (openD closeD : Char) (content : Str) : Str :=
  let trimmed := rustTrim content
  if trimmed.head? = some openD then trimmed
  else
    match claimedTagged trimmed with
    | some r => r
    | none =>
      match findSub trimmed 0 (str "```json") with
      | some _ =>
        match spanStrategy openD closeD trimmed with
        | some r => r
        | none => trimmed
      | none =>
        match genericBlock trimmed with
        | some r => r
        | none =>
          match spanStrategy openD closeD trimmed with
          | some r => r
          | none => trimmed

/-- C4 counterexample: the code does not use the first closing fence after
the tag (it prefers the first fence-plus-newline, else the last fence), and
object mode has no generic-fence fallback, so extraction differs from the
claimed algorithm on both modes. -/
theorem extractor_claim_counterexample :
    (extract_json_array (str "a ```json\nX``` b ``` c") = str "X``` b"
      ∧ extract_json_claimed '[' ']' (str "a ```json\nX``` b ``` c") = str "X")
  ∧ (extract_json_object (str "x ```\n\x7b\"a\":1\x7d\n``` tail \x7d") =
        str "\x7b\"a\":1\x7d\n``` tail \x7d"
      ∧ extract_json_claimed braceO braceC (str "x ```\n\x7b\"a\":1\x7d\n``` tail \x7d") =
        str "\x7b\"a\":1\x7d") := by decide

/-- Array-mode extraction as an ordered chain of total strategies (the
amended description of the code): leading `[`; tagged fence ended by the
first fence-plus-newline after the tag, else the last fence, when that span
is non-empty; first generic fence with optional language-tag line skipped;
first-`[`-to-last-`]` span; identity on the trimmed text. -/
def extractAmendedArray (content : Str) : Str :=
  let trimmed := rustTrim content
  if trimmed.head? = some '[' then trimmed
  else
    ((taggedJsonBlock trimmed).orElse (fun _ =>
      (genericBlock trimmed).orElse (fun _ =>
        spanStrategy '[' ']' trimmed))).getD trimmed

/-- Object-mode extraction as an ordered chain of total strategies: as the
array mode but with no generic-fence step and `\x7b`/`\x7d` delimiters. -/
def extractAmendedObject (content : Str) : Str :=
  let trimmed := rustTrim content
  if trimmed.head? = some braceO then trimmed
  else
    ((taggedJsonBlock trimmed).orElse (fun _ =>
      spanStrategy braceO braceC trimmed)).getD trimmed

/-- C4 (amended): for every input, array-mode and object-mode extraction
follow the prioritized strategy chain — leading expected delimiter verbatim
trimmed; `json`-tagged fence interior using the first fence-plus-newline
after the tag or else the last fence, when non-empty; (array mode only) the
first generic fenced block skipping an optional language-tag line;
first-opening-to-last-closing span; otherwise the trimmed text itself — and
in particular extraction is total: it always produces a result and never
errors. -/
theorem extractor_amended (content : Str) :
    extract_json_array content = extractAmendedArray content
  ∧ extract_json_object content = extractAmendedObject content := by
  constructor
  · simp only [extract_json_array, extractAmendedArray]
    by_cases hh : (rustTrim content).head? = some '['
    · simp [hh]
    · simp only [if_neg hh]
      cases ht : taggedJsonBlock (rustTrim content)
      · cases hg : genericBlock (rustTrim content)
        · simp only [Option.orElse, spanStrategy]
          cases hf : sfind (rustTrim content) ['['] <;>
            cases hr : srfind (rustTrim content) [']'] <;>
            simp <;> split <;> simp
        · simp [Option.orElse]
      · simp [Option.orElse]
  · simp only [extract_json_object, extractAmendedObject]
    by_cases hh : (rustTrim content).head? = some braceO
    · simp [hh]
    · simp only [if_neg hh]
      cases ht : taggedJsonBlock (rustTrim content)
      · simp only [Option.orElse, spanStrategy]
        cases hf : sfind (rustTrim content) [braceO] <;>
          cases hr : srfind (rustTrim content) [braceC] <;>
          simp <;> split <;> simp
      · simp [Option.orElse]

/-! ## Key injectivity in the sentence id (same model and language) -/

theorem takeWhile_append_all {p : Char → Bool} (xs ys : Str) (h : ∀ x ∈ xs, p x) :
    (xs ++ ys).takeWhile p = xs ++ ys.takeWhile p := by
  induction xs with
  | nil => simp
  | cons c t ih =>
    have hc : p c := h c (by simp)
    simp only [List.cons_append, List.takeWhile_cons, hc, if_true]
    rw [ih (fun x hx => h x (by simp [hx]))]

theorem extract_doc_id_no_colon (u : Str) : ∀ x ∈ extract_doc_id u, x ≠ ':' :=
  fun x hx => by simpa using List.mem_takeWhile_imp hx

theorem docPipe_lt_false (u v : Str)
    (hlt : (extract_doc_id u).length < (extract_doc_id v).length)
    (h : extract_doc_id u ++ '|' :: u = extract_doc_id v ++ '|' :: v) : False := by
  have hdrop := congrArg (List.drop (extract_doc_id u).length) h
  rw [List.drop_left, List.drop_append_of_le_length (Nat.le_of_lt hlt)] at hdrop
  have hne : (extract_doc_id v).drop (extract_doc_id u).length ≠ [] := by
    intro hnil
    have := congrArg List.length hnil
    simp at this
    omega
  obtain ⟨c, w, hw⟩ := List.exists_cons_of_ne_nil hne
  rw [hw] at hdrop
  simp only [List.cons_append, List.cons.injEq] at hdrop
  obtain ⟨hc, hu⟩ := hdrop
  have hwmem : ∀ x ∈ w, x ≠ ':' := by
    intro x hx
    have hxd : x ∈ extract_doc_id v := by
      have hxdrop : x ∈ (extract_doc_id v).drop (extract_doc_id u).length := by
        rw [hw]; simp [hx]
      exact (List.drop_sublist _ _).subset hxdrop
    exact extract_doc_id_no_colon v x hxd
  have hdu : extract_doc_id u = w ++ '|' :: extract_doc_id v := by
    show u.takeWhile (fun c => c ≠ ':') = _
    rw [hu, takeWhile_append_all w _ (fun x hx => by simpa using hwmem x hx)]
    simp [extract_doc_id]
  have hlen := congrArg List.length hdu
  simp only [List.length_append, List.length_cons] at hlen
  omega

theorem docPipe_inj (u v : Str)
    (h : extract_doc_id u ++ '|' :: u = extract_doc_id v ++ '|' :: v) : u = v := by
  rcases Nat.lt_trichotomy (extract_doc_id u).length (extract_doc_id v).length with
    hlt | heq | hgt
  · exact (docPipe_lt_false u v hlt h).elim
  · have := (List.append_inj h heq).2
    simpa using this
  · exact (docPipe_lt_false v u hgt h.symm).elim

theorem bytesHex_length (bs : List Nat) : (bytesHex bs).length = 2 * bs.length := by
  induction bs with
  | nil => rfl
  | cons b t ih =>
    simp only [bytesHex, List.map_cons, List.flatten_cons, List.length_append, byteHex,
      List.length_cons, List.length_nil, List.length_map] at ih ⊢
    omega

theorem sha256Bytes_length (msg : List Nat) : (sha256Bytes msg).length = 32 := by
  simp [sha256Bytes, bytesOfWord]

theorem hash_source_text_length (t : Str) : (hash_source_text t).length = 64 := by
  simp [hash_source_text, bytesHex_length, sha256Bytes_length]

theorem cache_key_shape2 (m c s t : Str) :
    cache_key m c s t =
      (extract_doc_id s ++ '|' :: s) ++
        ('|' :: (hash_source_text t ++ ('|' :: m ++ '|' :: c))) := by
  simp [cache_key]

/-- Within one call (fixed model and language code), equal cache keys force
equal sentence ids. -/
theorem cache_key_sid_inj (m c a ta b tb : Str)
    (h : cache_key m c a ta = cache_key m c b tb) : a = b := by
  rw [cache_key_shape2, cache_key_shape2] at h
  have hlen := congrArg List.length h
  simp only [List.length_append, List.length_cons, hash_source_text_length] at hlen
  have hA : (extract_doc_id a ++ '|' :: a).length = (extract_doc_id b ++ '|' :: b).length := by
    simp only [List.length_append, List.length_cons]
    omega
  exact docPipe_inj a b (List.append_inj h hA).1

/-! ## Map lemmas -/

theorem alistGet_insert (m : SMap) (k v x : Str) :
    alistGet (alistInsert m k v) x = if x = k then some v else alistGet m x := by
  induction m with
  | nil =>
    by_cases hx : x = k
    · simp [alistInsert, alistGet, List.find?, hx]
    · have hkx : (k == x) = false := by
        simp only [beq_eq_false_iff_ne]
        exact fun hk => hx hk.symm
      simp [alistInsert, alistGet, List.find?, hkx, hx]
  | cons p t ih =>
    by_cases hp : p.1 = k
    · have hpk : (p.1 == k) = true := by simpa using hp
      by_cases hx : x = k
      · simp [alistInsert, alistGet, List.find?, hpk, hx]
      · have hkx : (k == x) = false := by
          simp only [beq_eq_false_iff_ne]
          exact fun hk => hx hk.symm
        have hpx : (p.1 == x) = false := by
          simp only [beq_eq_false_iff_ne, hp]
          exact fun hk => hx hk.symm
        simp [alistInsert, alistGet, List.find?, hpk, hkx, hpx, hx]
    · have hpk : (p.1 == k) = false := by simpa using hp
      by_cases hx : x = p.1
      · have hpx : (p.1 == x) = true := by simpa using hx.symm
        have hxk : ¬x = k := fun hk => hp (hx ▸ hk)
        simp [alistInsert, alistGet, List.find?, hpk, hpx, hxk]
      · have hpx : (p.1 == x) = false := by
          simp only [beq_eq_false_iff_ne]
          exact fun hk => hx hk.symm
        simp only [alistInsert, hpk, Bool.false_eq_true, if_false, alistGet, List.find?,
          hpx]
        exact ih

/-! ## Characterizing the three orchestrator loops -/

/-- The translation of the last decoded item carrying a given id, if any
(last-writer-wins, matching `HashMap::insert` in the write-back loop). -/
def lastTrOf : List TranslationResult → Str → Option Str
  | [], _ => none
  | it :: rest, x =>
    match lastTrOf rest x with
    | some v => some v
    | none => if it.sid = x then some it.translation else none

/-- The miss list computed by a call that loaded `cache`. -/
def missingOf (model : Str) (tl : TargetLanguage) (cache : SMap)
    (ss : List TranslateSentence) : List TranslateSentence :=
  (cacheSplit cache (cache_key model tl.code) ss []).2

/-- The hit-fed results map computed by a call that loaded `cache`. -/
def hitsOf (model : Str) (tl : TargetLanguage) (cache : SMap)
    (ss : List TranslateSentence) : SMap :=
  (cacheSplit cache (cache_key model tl.code) ss []).1

theorem cacheSplit_missing (cache : SMap) (key : Str → Str → Str)
    (ss : List TranslateSentence) (acc : SMap) :
    (cacheSplit cache key ss acc).2 =
      ss.filter (fun s => (alistGet cache (key s.sid s.text)).isNone) := by
  induction ss generalizing acc with
  | nil => rfl
  | cons s t ih =>
    cases h : alistGet cache (key s.sid s.text) <;>
      simp [cacheSplit, h, ih, List.filter_cons]

theorem cacheSplit_results_not_mem (cache : SMap) (key : Str → Str → Str)
    (ss : List TranslateSentence) (acc : SMap) (x : Str)
    (h : ∀ s ∈ ss, s.sid ≠ x) :
    alistGet (cacheSplit cache key ss acc).1 x = alistGet acc x := by
  induction ss generalizing acc with
  | nil => rfl
  | cons s t ih =>
    cases hv : alistGet cache (key s.sid s.text)
    · simp only [cacheSplit, hv]
      exact ih acc (fun a ha => h a (List.mem_cons_of_mem s ha))
    · simp only [cacheSplit, hv]
      rw [ih _ (fun a ha => h a (List.mem_cons_of_mem s ha)), alistGet_insert]
      have : ¬x = s.sid := fun hh => h s (List.mem_cons_self s t) hh.symm
      simp [this]

theorem cacheSplit_results_hit (cache : SMap) (key : Str → Str → Str)
    (ss : List TranslateSentence) (acc : SMap) (s : TranslateSentence) (v : Str)
    (hnd : (ss.map (fun a => a.sid)).Nodup) (hs : s ∈ ss)
    (hv : alistGet cache (key s.sid s.text) = some v) :
    alistGet (cacheSplit cache key ss acc).1 s.sid = some v := by
  induction ss generalizing acc with
  | nil => cases hs
  | cons a t ih =>
    have hh := hnd
    simp only [List.map_cons, List.nodup_cons, List.mem_map, not_exists, not_and] at hh
    obtain ⟨h1, h2⟩ := hh
    rcases List.mem_cons.mp hs with heq | hmem
    · subst heq
      simp only [cacheSplit, hv]
      have hnotin : ∀ b ∈ t, b.sid ≠ s.sid := fun b hb => h1 b hb
      rw [cacheSplit_results_not_mem cache key t _ s.sid hnotin, alistGet_insert]
      simp
    · cases hv2 : alistGet cache (key a.sid a.text) <;>
        simp only [cacheSplit, hv2] <;>
        exact ih _ h2 hmem

theorem cacheSplit_results_miss (cache : SMap) (key : Str → Str → Str)
    (ss : List TranslateSentence) (acc : SMap) (x : Str)
    (hmiss : ∀ s ∈ ss, s.sid = x → alistGet cache (key s.sid s.text) = none)
    (hacc : alistGet acc x = none) :
    alistGet (cacheSplit cache key ss acc).1 x = none := by
  induction ss generalizing acc with
  | nil => exact hacc
  | cons a t ih =>
    cases hv : alistGet cache (key a.sid a.text)
    · simp only [cacheSplit, hv]
      exact ih _ (fun s hs => hmiss s (List.mem_cons_of_mem a hs)) hacc
    · simp only [cacheSplit, hv]
      have hax : ¬a.sid = x := by
        intro hax
        rw [hmiss a (List.mem_cons_self a t) hax] at hv
        cases hv
      refine ih _ (fun s hs => hmiss s (List.mem_cons_of_mem a hs)) ?_
      rw [alistGet_insert]
      have : ¬x = a.sid := fun hh => hax hh.symm
      simp [this, hacc]

theorem applyTranslations_results_get (m c : Str) (miss : List TranslateSentence)
    (ts : List TranslationResult) (cache res : SMap) (x : Str) :
    alistGet (applyTranslations m c miss ts cache res).2 x =
      match lastTrOf ts x with
      | some v => some v
      | none => alistGet res x := by
  induction ts generalizing cache res with
  | nil => rfl
  | cons it rest ih =>
    simp only [applyTranslations, lastTrOf]
    rw [ih]
    cases hl : lastTrOf rest x
    · rw [alistGet_insert]
      by_cases hx : it.sid = x
      · simp [hx]
      · have : ¬x = it.sid := fun hh => hx hh.symm
        simp [hx, this]
    · simp

theorem applyTranslations_cache_untouched (m c : Str) (miss : List TranslateSentence)
    (ts : List TranslationResult) (cache res : SMap) (k : Str)
    (h : ∀ it ∈ ts, cache_key m c it.sid (matchText miss it.sid) ≠ k) :
    alistGet (applyTranslations m c miss ts cache res).1 k = alistGet cache k := by
  induction ts generalizing cache res with
  | nil => rfl
  | cons it rest ih =>
    simp only [applyTranslations]
    rw [ih _ _ (fun a ha => h a (List.mem_cons_of_mem it ha)), alistGet_insert]
    have : ¬k = cache_key m c it.sid (matchText miss it.sid) :=
      fun hh => h it (List.mem_cons_self it rest) hh.symm
    simp [this]

theorem applyTranslations_cache_get_key (m c : Str) (miss : List TranslateSentence)
    (ts : List TranslationResult) (cache res : SMap) (x : Str) :
    alistGet (applyTranslations m c miss ts cache res).1
        (cache_key m c x (matchText miss x)) =
      match lastTrOf ts x with
      | some v => some v
      | none => alistGet cache (cache_key m c x (matchText miss x)) := by
  induction ts generalizing cache res with
  | nil => rfl
  | cons it rest ih =>
    simp only [applyTranslations, lastTrOf]
    rw [ih]
    cases hl : lastTrOf rest x
    · rw [alistGet_insert]
      by_cases hx : it.sid = x
      · rw [hx]
        simp
      · have hk : ¬cache_key m c x (matchText miss x) =
            cache_key m c it.sid (matchText miss it.sid) := by
          intro hh
          exact hx (cache_key_sid_inj m c x (matchText miss x) it.sid
            (matchText miss it.sid) hh).symm
        simp [hx, hk]
    · simp

theorem assembleOutput_eq_filterMap (r : SMap) (ss : List TranslateSentence) :
    assembleOutput r ss =
      ss.filterMap (fun s => (alistGet r s.sid).map (fun v => ⟨s.sid, v⟩)) := by
  induction ss with
  | nil => rfl
  | cons s t ih =>
    cases h : alistGet r s.sid <;> simp [assembleOutput, h, ih]

theorem assembleOutput_congr (r1 r2 : SMap) (ss : List TranslateSentence)
    (h : ∀ s ∈ ss, alistGet r1 s.sid = alistGet r2 s.sid) :
    assembleOutput r1 ss = assembleOutput r2 ss := by
  induction ss with
  | nil => rfl
  | cons s t ih =>
    have hs := h s (List.mem_cons_self s t)
    have ht := ih (fun a ha => h a (List.mem_cons_of_mem s ha))
    simp only [assembleOutput, hs, ht]

theorem mem_assembleOutput (r : SMap) (ss : List TranslateSentence)
    (tr : TranslationResult) (h : tr ∈ assembleOutput r ss) :
    alistGet r tr.sid = some tr.translation := by
  induction ss with
  | nil => cases h
  | cons s t ih =>
    rw [assembleOutput] at h
    cases hv : alistGet r s.sid with
    | none =>
      rw [hv] at h
      exact ih h
    | some v =>
      rw [hv] at h
      rcases List.mem_cons.mp h with heq | hmem
      · subst heq
        simpa using hv
      · exact ih hmem

theorem assembleOutput_sid_sublist (r : SMap) (ss : List TranslateSentence) :
    List.Sublist ((assembleOutput r ss).map (fun t => t.sid))
      (ss.map (fun s => s.sid)) := by
  induction ss with
  | nil => exact List.Sublist.refl _
  | cons s t ih =>
    cases h : alistGet r s.sid
    · simp only [assembleOutput, h, List.map_cons]
      exact List.Sublist.cons _ ih
    · simp only [assembleOutput, h, List.map_cons]
      exact List.Sublist.cons₂ _ ih

/-! ## Path characterization of successful calls -/

/-- How a successful decode was obtained: either the first reply decoded, or
the first decode failed and the strict-prompt retry decoded; `reqs` records
the requests issued. -/
def DecodedReqs (env : Env) (tl : TargetLanguage)
    (missing : List TranslateSentence) (ts : List TranslationResult)
    (reqs : List (Str × Str)) : Prop :=
  (∃ c, env.responses 0 = .ok c ∧ parse_translation_json c = some (.ok ts) ∧
    reqs = [(build_system_prompt, build_user_prompt tl missing)]) ∨
  (∃ c e c2, env.responses 0 = .ok c ∧ parse_translation_json c = some (.error e) ∧
    env.responses 1 = .ok c2 ∧ parse_translation_json c2 = some (.ok ts) ∧
    reqs = [(build_system_prompt, build_user_prompt tl missing),
            (build_system_prompt, build_strict_user_prompt tl missing)])

theorem translate_ok_cases (model : Str) (tl : TargetLanguage)
    (ss : List TranslateSentence) (env : Env) (out : List TranslationResult)
    (h : (openrouter_translate model tl ss env).result = .ok out) :
    (ss = [] ∧ openrouter_translate model tl ss env =
      { result := .ok [], requests := [], cacheLoads := 0, keyLoads := 0,
        saves := 0, savedCache := none, finalCache := none, finalResults := [] }) ∨
    (∃ cache, env.cacheLoad = .ok cache ∧
      ((missingOf model tl cache ss = [] ∧
        openrouter_translate model tl ss env =
          { result := .ok (assembleOutput (hitsOf model tl cache ss) ss),
            requests := [], cacheLoads := 1, keyLoads := 0, saves := 0,
            savedCache := none, finalCache := some cache,
            finalResults := hitsOf model tl cache ss }) ∨
       (missingOf model tl cache ss ≠ [] ∧
        ∃ k ts reqs, env.keyLoad = .ok k ∧
          DecodedReqs env tl (missingOf model tl cache ss) ts reqs ∧
          env.saveResult = .ok () ∧
          openrouter_translate model tl ss env =
            { result := .ok (assembleOutput
                (applyTranslations model tl.code (missingOf model tl cache ss) ts
                  cache (hitsOf model tl cache ss)).2 ss),
              requests := reqs, cacheLoads := 1, keyLoads := 1, saves := 1,
              savedCache := some (applyTranslations model tl.code
                (missingOf model tl cache ss) ts cache (hitsOf model tl cache ss)).1,
              finalCache := some (applyTranslations model tl.code
                (missingOf model tl cache ss) ts cache (hitsOf model tl cache ss)).1,
              finalResults := (applyTranslations model tl.code
                (missingOf model tl cache ss) ts cache (hitsOf model tl cache ss)).2 }))) := by
  cases hss : ss.isEmpty
  · right
    cases hc : env.cacheLoad with
    | error e => simp [openrouter_translate, hss, hc] at h
    | ok cache =>
      refine ⟨cache, rfl, ?_⟩
      cases hm : (cacheSplit cache (cache_key model tl.code) ss []).2.isEmpty
      · right
        refine ⟨?_, ?_⟩
        · intro hh
          simp only [missingOf] at hh
          rw [hh] at hm
          simp at hm
        cases hk : env.keyLoad with
        | error e => simp [openrouter_translate, hss, hc, hm, hk] at h
        | ok k =>
          cases hr0 : env.responses 0 with
          | error e => simp [openrouter_translate, hss, hc, hm, hk, hr0] at h
          | ok c =>
            cases hp0 : parse_translation_json c with
            | none => simp [openrouter_translate, hss, hc, hm, hk, hr0, hp0] at h
            | some pr =>
              cases pr with
              | ok ts =>
                cases hsv : env.saveResult with
                | error e =>
                  simp [openrouter_translate, hss, hc, hm, hk, hr0, hp0,
                    translateFinish, hsv] at h
                | ok u =>
                  cases u
                  refine ⟨k, ts, _, rfl, Or.inl ⟨c, hr0, hp0, rfl⟩, rfl, ?_⟩
                  simp [openrouter_translate, hss, hc, hm, hk, hr0, hp0,
                    translateFinish, hsv, missingOf, hitsOf]
              | error e1 =>
                cases hr1 : env.responses 1 with
                | error e =>
                  simp [openrouter_translate, hss, hc, hm, hk, hr0, hp0, hr1] at h
                | ok c2 =>
                  cases hp1 : parse_translation_json c2 with
                  | none =>
                    simp [openrouter_translate, hss, hc, hm, hk, hr0, hp0, hr1, hp1] at h
                  | some pr2 =>
                    cases pr2 with
                    | error e2 =>
                      simp [openrouter_translate, hss, hc, hm, hk, hr0, hp0, hr1, hp1] at h
                    | ok ts =>
                      cases hsv : env.saveResult with
                      | error e =>
                        simp [openrouter_translate, hss, hc, hm, hk, hr0, hp0, hr1, hp1,
                          translateFinish, hsv] at h
                      | ok u =>
                        cases u
                        refine ⟨k, ts, _, rfl,
                          Or.inr ⟨c, e1, c2, hr0, hp0, hr1, hp1, rfl⟩, rfl, ?_⟩
                        simp [openrouter_translate, hss, hc, hm, hk, hr0, hp0, hr1, hp1,
                          translateFinish, hsv, missingOf, hitsOf]
      · left
        refine ⟨by simpa [missingOf] using hm, ?_⟩
        simp [openrouter_translate, hss, hc, hm, missingOf, hitsOf]
  · left
    refine ⟨List.isEmpty_iff.mp hss, ?_⟩
    simp [openrouter_translate, hss]

/-! ## C3: order preservation with silent partial resolution -/

/-- C3: whenever `openrouter_translate` returns normally, its output is the
input list filtered, in the caller's original order, to exactly those
sentences whose id has a resolved value in the call's final results map
(fed by cache hits and decoded items); ids without a usable result are
silently absent, and the output ids form a subsequence of the input ids. -/
theorem translate_order_preservation (model : Str) (tl : TargetLanguage)
    (ss : List TranslateSentence) (env : Env) (out : List TranslationResult)
    (h : (openrouter_translate model tl ss env).result = .ok out) :
    out = ss.filterMap (fun s =>
      (alistGet (openrouter_translate model tl ss env).finalResults s.sid).map
        (fun v => ⟨s.sid, v⟩))
  ∧ List.Sublist (out.map (fun t => t.sid)) (ss.map (fun s => s.sid)) := by
  rcases translate_ok_cases model tl ss env out h with ⟨hss, hout⟩ |
    ⟨cache, hc, ⟨hm, hout⟩ | ⟨hm, k, ts, reqs, hk, hdec, hsv, hout⟩⟩
  · subst hss
    rw [hout] at h
    simp only [CallResult.ok.injEq] at h
    subst h
    rw [hout]
    simp
  · rw [hout] at h
    simp only [CallResult.ok.injEq] at h
    subst h
    rw [hout]
    refine ⟨?_, assembleOutput_sid_sublist _ _⟩
    simpa using assembleOutput_eq_filterMap _ _
  · rw [hout] at h
    simp only [CallResult.ok.injEq] at h
    subst h
    rw [hout]
    refine ⟨?_, assembleOutput_sid_sublist _ _⟩
    simpa using assembleOutput_eq_filterMap _ _

/-- Witness for C3: a one-sentence call against an empty cache and a remote
reply translating it. -/
theorem translate_order_preservation_witness :
    [(⟨str "a", str "v"⟩ : TranslationResult)] =
      [(⟨str "a", str "t"⟩ : TranslateSentence)].filterMap (fun s =>
        (alistGet (openrouter_translate (str "m") enLang [⟨str "a", str "t"⟩]
          (envOk [] respA)).finalResults s.sid).map (fun v => ⟨s.sid, v⟩))
  ∧ List.Sublist ([(⟨str "a", str "v"⟩ : TranslationResult)].map (fun t => t.sid))
      ([(⟨str "a", str "t"⟩ : TranslateSentence)].map (fun s => s.sid)) :=
  translate_order_preservation (str "m") enLang [⟨str "a", str "t"⟩]
    (envOk [] respA) [⟨str "a", str "v"⟩] (by decide)

/-! ## C2: bounded retry -/

/-- C2: with a non-empty miss set the remote endpoint is called at most
twice per invocation: when the first reply decodes, exactly the one batch
request was issued; when decoding the first reply fails with a ParseError,
exactly one more request with the stricter prompt is issued; and when the
second decode also fails, the whole call returns the wrapped ParseError with
no further retry. -/
theorem translate_bounded_retry (model : Str) (tl : TargetLanguage)
    (ss : List TranslateSentence) (env : Env) (cache : SMap)
    (hc : env.cacheLoad = .ok cache)
    (hm : missingOf model tl cache ss ≠ []) :
    (openrouter_translate model tl ss env).requests.length ≤ 2
  ∧ (∀ k c ts, env.keyLoad = .ok k → env.responses 0 = .ok c →
      parse_translation_json c = some (.ok ts) →
      (openrouter_translate model tl ss env).requests =
        [(build_system_prompt, build_user_prompt tl (missingOf model tl cache ss))])
  ∧ (∀ k c e, env.keyLoad = .ok k → env.responses 0 = .ok c →
      parse_translation_json c = some (.error e) →
      (openrouter_translate model tl ss env).requests =
        [(build_system_prompt, build_user_prompt tl (missingOf model tl cache ss)),
         (build_system_prompt,
           build_strict_user_prompt tl (missingOf model tl cache ss))])
  ∧ (∀ k c e c2 e2, env.keyLoad = .ok k → env.responses 0 = .ok c →
      parse_translation_json c = some (.error e) → env.responses 1 = .ok c2 →
      parse_translation_json c2 = some (.error e2) →
      (openrouter_translate model tl ss env).result =
        .err (str "Failed to parse OpenRouter JSON: " ++ e2)) := by
  have hss : ss.isEmpty = false := by
    cases hse : ss.isEmpty
    · rfl
    · exfalso
      apply hm
      have hnil : ss = [] := List.isEmpty_iff.mp hse
      simp [missingOf, hnil, cacheSplit]
  have hmB : (cacheSplit cache (cache_key model tl.code) ss []).2.isEmpty = false := by
    cases he : (cacheSplit cache (cache_key model tl.code) ss []).2.isEmpty
    · rfl
    · exact absurd (List.isEmpty_iff.mp he) (by simpa [missingOf] using hm)
  refine ⟨?_, ?_, ?_, ?_⟩
  · cases hk : env.keyLoad with
    | error e => simp [openrouter_translate, hss, hc, hmB, hk]
    | ok k =>
      cases hr0 : env.responses 0 with
      | error e => simp [openrouter_translate, hss, hc, hmB, hk, hr0]
      | ok c =>
        cases hp0 : parse_translation_json c with
        | none => simp [openrouter_translate, hss, hc, hmB, hk, hr0, hp0]
        | some pr =>
          cases pr with
          | ok ts =>
            cases hsv : env.saveResult <;>
              simp [openrouter_translate, hss, hc, hmB, hk, hr0, hp0,
                translateFinish, hsv]
          | error e1 =>
            cases hr1 : env.responses 1 with
            | error e => simp [openrouter_translate, hss, hc, hmB, hk, hr0, hp0, hr1]
            | ok c2 =>
              cases hp1 : parse_translation_json c2 with
              | none => simp [openrouter_translate, hss, hc, hmB, hk, hr0, hp0, hr1, hp1]
              | some pr2 =>
                cases pr2 with
                | ok ts =>
                  cases hsv : env.saveResult <;>
                    simp [openrouter_translate, hss, hc, hmB, hk, hr0, hp0, hr1, hp1,
                      translateFinish, hsv]
                | error e2 =>
                  simp [openrouter_translate, hss, hc, hmB, hk, hr0, hp0, hr1, hp1]
  · intro k c ts hk hr0 hp0
    cases hsv : env.saveResult <;>
      simp [openrouter_translate, hss, hc, hmB, hk, hr0, hp0, translateFinish, hsv,
        missingOf]
  · intro k c e hk hr0 hp0
    cases hr1 : env.responses 1 with
    | error e2 =>
      simp [openrouter_translate, hss, hc, hmB, hk, hr0, hp0, hr1, missingOf]
    | ok c2 =>
      cases hp1 : parse_translation_json c2 with
      | none => simp [openrouter_translate, hss, hc, hmB, hk, hr0, hp0, hr1, hp1, missingOf]
      | some pr2 =>
        cases pr2 with
        | ok ts =>
          cases hsv : env.saveResult <;>
            simp [openrouter_translate, hss, hc, hmB, hk, hr0, hp0, hr1, hp1,
              translateFinish, hsv, missingOf]
        | error e2 =>
          simp [openrouter_translate, hss, hc, hmB, hk, hr0, hp0, hr1, hp1, missingOf]
  · intro k c e c2 e2 hk hr0 hp0 hr1 hp1
    simp [openrouter_translate, hss, hc, hmB, hk, hr0, hp0, hr1, hp1]

/-- An environment whose remote replies never decode: reply `x` first, `y`
on the retry. -/
def envBad : Env :=
  ⟨.ok [], .ok (str "k"),
   fun n => if n = 0 then .ok (str "x") else .ok (str "y"), .ok ()⟩

/-- Witness for C2: with undecodable replies the call issues exactly two
requests and fails with the wrapped ParseError. -/
theorem translate_bounded_retry_witness :
    (openrouter_translate (str "m") enLang [⟨str "a", str "t"⟩] envBad).requests.length ≤ 2
  ∧ (openrouter_translate (str "m") enLang [⟨str "a", str "t"⟩] envBad).result =
      .err (str "Failed to parse OpenRouter JSON: " ++
        str "expected value (content: y)") := by
  have h := translate_bounded_retry (str "m") enLang [⟨str "a", str "t"⟩] envBad []
    rfl (by decide)
  exact ⟨h.1, h.2.2.2 (str "k") (str "x") (str "expected value (content: x)")
    (str "y") (str "expected value (content: y)") rfl rfl (by decide) rfl (by decide)⟩

/-! ## C7: persistence failure -/

/-- C7 counterexample: the remote call and decoding succeed but saving the
cache fails; contrary to the claim, the computed translations are not
returned — the call returns the save error. -/
theorem persistence_failure_counterexample :
    (openrouter_translate (str "m") enLang [⟨str "a", str "t"⟩]
      ⟨.ok [], .ok (str "k"), fun _ => .ok respA, .error (str "disk full")⟩).result =
      .err (str "disk full") := by decide

/-- C7 (amended): when the remote call and decoding succeed but saving the
cache fails, the whole call fails with the persistence error; the decoded
translations survive only in the call's internal results map and are not
returned to the caller. -/
theorem translate_save_failure (model : Str) (tl : TargetLanguage)
    (ss : List TranslateSentence) (env : Env) (cache : SMap) (k : Str)
    (ts : List TranslationResult) (e : Str)
    (hc : env.cacheLoad = .ok cache)
    (hm : missingOf model tl cache ss ≠ [])
    (hk : env.keyLoad = .ok k)
    (hdec : ∃ reqs, DecodedReqs env tl (missingOf model tl cache ss) ts reqs)
    (hsv : env.saveResult = .error e) :
    (openrouter_translate model tl ss env).result = .err e
  ∧ (openrouter_translate model tl ss env).saves = 1
  ∧ (openrouter_translate model tl ss env).finalResults =
      (applyTranslations model tl.code (missingOf model tl cache ss) ts cache
        (hitsOf model tl cache ss)).2 := by
  have hss : ss.isEmpty = false := by
    cases hse : ss.isEmpty
    · rfl
    · exfalso
      apply hm
      have hnil : ss = [] := List.isEmpty_iff.mp hse
      simp [missingOf, hnil, cacheSplit]
  have hmB : (cacheSplit cache (cache_key model tl.code) ss []).2.isEmpty = false := by
    cases he : (cacheSplit cache (cache_key model tl.code) ss []).2.isEmpty
    · rfl
    · exact absurd (List.isEmpty_iff.mp he) (by simpa [missingOf] using hm)
  obtain ⟨reqs, hdec⟩ := hdec
  rcases hdec with ⟨c, hr0, hp0, hreqs⟩ | ⟨c, e1, c2, hr0, hp0, hr1, hp1, hreqs⟩
  · refine ⟨?_, ?_, ?_⟩ <;>
      simp [openrouter_translate, hss, hc, hmB, hk, hr0, hp0,
        translateFinish, hsv, missingOf, hitsOf]
  · refine ⟨?_, ?_, ?_⟩ <;>
      simp [openrouter_translate, hss, hc, hmB, hk, hr0, hp0, hr1, hp1,
        translateFinish, hsv, missingOf, hitsOf]

/-- The environment of the C7/C8 witnesses: one miss, a decodable reply,
a failing save. -/
def envSaveFail : Env :=
  ⟨.ok [], .ok (str "k"), fun _ => .ok respA, .error (str "disk full")⟩

/-- Witness for C7. -/
theorem translate_save_failure_witness :
    (openrouter_translate (str "m") enLang [⟨str "a", str "t"⟩] envSaveFail).result =
      .err (str "disk full")
  ∧ (openrouter_translate (str "m") enLang [⟨str "a", str "t"⟩] envSaveFail).saves = 1 := by
  have h := translate_save_failure (str "m") enLang [⟨str "a", str "t"⟩] envSaveFail
    [] (str "k") [⟨str "a", str "v"⟩] (str "disk full") rfl (by decide) rfl
    ⟨[(build_system_prompt, build_user_prompt enLang
        (missingOf (str "m") enLang [] [⟨str "a", str "t"⟩]))],
      Or.inl ⟨respA, rfl, by decide, rfl⟩⟩ rfl
  exact ⟨h.1, h.2.1⟩

/-! ## C8: cache writes -/

theorem lastTrOf_isSome_of_mem (ts : List TranslationResult)
    (it : TranslationResult) (h : it ∈ ts) : (lastTrOf ts it.sid).isSome := by
  induction ts with
  | nil => cases h
  | cons a rest ih =>
    rcases List.mem_cons.mp h with heq | hmem
    · subst heq
      simp only [lastTrOf]
      cases hl : lastTrOf rest it.sid <;> simp
    · simp only [lastTrOf]
      have := ih hmem
      cases hl : lastTrOf rest it.sid
      · rw [hl] at this
        cases this
      · simp

/-- C8 counterexample: the decoded result id `b` matches no miss sentence
(the single miss has id `a`), yet a cache entry keyed with `b` and the empty
source text is written and saved, contradicting the claim that no entry is
written for unmatched results. -/
theorem cache_write_claim_counterexample :
    missingOf (str "m") enLang [] [⟨str "a", str "t"⟩] = [⟨str "a", str "t"⟩]
  ∧ alistGet ((openrouter_translate (str "m") enLang [⟨str "a", str "t"⟩]
      (envOk [] respB)).savedCache.getD [])
      (cache_key (str "m") (str "en") (str "b") []) = some (str "v") := by decide

/-- C8 (amended): whenever a decode succeeds, the call performs exactly one
save whose cache is the loaded cache extended by one entry per decoded
result — keyed by the result id and the matching miss sentence's original
text when one exists, and by the empty string otherwise (so unmatched
results do produce entries) — with last-writer-wins values; every other key
is untouched. -/
theorem translate_cache_write_coverage (model : Str) (tl : TargetLanguage)
    (ss : List TranslateSentence) (env : Env) (cache : SMap) (k : Str)
    (ts : List TranslationResult) (reqs : List (Str × Str))
    (hc : env.cacheLoad = .ok cache)
    (hm : missingOf model tl cache ss ≠ [])
    (hk : env.keyLoad = .ok k)
    (hdec : DecodedReqs env tl (missingOf model tl cache ss) ts reqs) :
    (openrouter_translate model tl ss env).saves = 1
  ∧ (openrouter_translate model tl ss env).savedCache =
      some (applyTranslations model tl.code (missingOf model tl cache ss) ts cache
        (hitsOf model tl cache ss)).1
  ∧ (∀ it ∈ ts,
      alistGet (applyTranslations model tl.code (missingOf model tl cache ss) ts cache
          (hitsOf model tl cache ss)).1
        (cache_key model tl.code it.sid
          (matchText (missingOf model tl cache ss) it.sid)) =
      lastTrOf ts it.sid ∧ (lastTrOf ts it.sid).isSome)
  ∧ (∀ key2,
      alistGet (applyTranslations model tl.code (missingOf model tl cache ss) ts cache
          (hitsOf model tl cache ss)).1 key2 = alistGet cache key2 ∨
      ∃ it ∈ ts, key2 = cache_key model tl.code it.sid
        (matchText (missingOf model tl cache ss) it.sid)) := by
  have hss : ss.isEmpty = false := by
    cases hse : ss.isEmpty
    · rfl
    · exfalso
      apply hm
      have hnil : ss = [] := List.isEmpty_iff.mp hse
      simp [missingOf, hnil, cacheSplit]
  have hmB : (cacheSplit cache (cache_key model tl.code) ss []).2.isEmpty = false := by
    cases he : (cacheSplit cache (cache_key model tl.code) ss []).2.isEmpty
    · rfl
    · exact absurd (List.isEmpty_iff.mp he) (by simpa [missingOf] using hm)
  refine ⟨?_, ?_, ?_, ?_⟩
  · rcases hdec with ⟨c, hr0, hp0, hreqs⟩ | ⟨c, e1, c2, hr0, hp0, hr1, hp1, hreqs⟩
    · cases hsv : env.saveResult <;>
        simp [openrouter_translate, hss, hc, hmB, hk, hr0, hp0, translateFinish, hsv]
    · cases hsv : env.saveResult <;>
        simp [openrouter_translate, hss, hc, hmB, hk, hr0, hp0, hr1, hp1,
          translateFinish, hsv]
  · rcases hdec with ⟨c, hr0, hp0, hreqs⟩ | ⟨c, e1, c2, hr0, hp0, hr1, hp1, hreqs⟩
    · cases hsv : env.saveResult <;>
        simp [openrouter_translate, hss, hc, hmB, hk, hr0, hp0, translateFinish, hsv,
          missingOf, hitsOf]
    · cases hsv : env.saveResult <;>
        simp [openrouter_translate, hss, hc, hmB, hk, hr0, hp0, hr1, hp1,
          translateFinish, hsv, missingOf, hitsOf]
  · intro it hit
    have hkey := applyTranslations_cache_get_key model tl.code
      (missingOf model tl cache ss) ts cache (hitsOf model tl cache ss) it.sid
    have hsome := lastTrOf_isSome_of_mem ts it hit
    obtain ⟨v, hv⟩ := Option.isSome_iff_exists.mp hsome
    rw [hv] at hkey
    rw [hkey, hv]
    exact ⟨rfl, by simp [hv]⟩
  · intro key2
    by_cases hx : ∃ it ∈ ts, cache_key model tl.code it.sid
        (matchText (missingOf model tl cache ss) it.sid) = key2
    · right
      obtain ⟨it, hit, hkeq⟩ := hx
      exact ⟨it, hit, hkeq.symm⟩
    · left
      push_neg at hx
      exact applyTranslations_cache_untouched model tl.code
        (missingOf model tl cache ss) ts cache (hitsOf model tl cache ss) key2 hx

/-- Witness for C8: one miss `a`, decoded result for `b`. -/
theorem translate_cache_write_coverage_witness :
    (openrouter_translate (str "m") enLang [⟨str "a", str "t"⟩]
      (envOk [] respB)).saves = 1
  ∧ alistGet (applyTranslations (str "m") enLang.code
        (missingOf (str "m") enLang [] [⟨str "a", str "t"⟩]) [⟨str "b", str "v"⟩] []
        (hitsOf (str "m") enLang [] [⟨str "a", str "t"⟩])).1
      (cache_key (str "m") enLang.code (str "b")
        (matchText (missingOf (str "m") enLang [] [⟨str "a", str "t"⟩]) (str "b"))) =
      lastTrOf [⟨str "b", str "v"⟩] (str "b") := by
  have h := translate_cache_write_coverage (str "m") enLang [⟨str "a", str "t"⟩]
    (envOk [] respB) [] (str "k") [⟨str "b", str "v"⟩]
    [(build_system_prompt, build_user_prompt enLang
        (missingOf (str "m") enLang [] [⟨str "a", str "t"⟩]))]
    rfl (by decide) rfl (Or.inl ⟨respB, rfl, by decide, rfl⟩)
  exact ⟨h.1, (h.2.2.1 ⟨str "b", str "v"⟩ (by simp)).1⟩

/-! ## C1: cache idempotence -/

/-- C1 counterexample: two sentences share id `a` with different texts.  The
first call succeeds and resolves every sentence id (both occurrences), but a
second call with the identical list against the saved cache still issues a
remote request: the duplicate id was cached under the first occurrence's
text, so the second occurrence's fingerprint misses. -/
theorem cache_idempotence_counterexample :
    (openrouter_translate (str "m") enLang dupSentences (envOk [] respA)).result =
      .ok [⟨str "a", str "v"⟩, ⟨str "a", str "v"⟩]
  ∧ (openrouter_translate (str "m") enLang dupSentences
      (envOk ((openrouter_translate (str "m") enLang dupSentences
        (envOk [] respA)).finalCache.getD []) respA)).requests.length = 1 := by decide

theorem nodup_sid_inj (ss : List TranslateSentence)
    (hnd : (ss.map (fun s => s.sid)).Nodup) (a b : TranslateSentence)
    (ha : a ∈ ss) (hb : b ∈ ss) (hab : a.sid = b.sid) : a = b := by
  induction ss with
  | nil => cases ha
  | cons x t ih =>
    have hx := hnd
    simp only [List.map_cons, List.nodup_cons, List.mem_map, not_exists, not_and] at hx
    obtain ⟨h1, h2⟩ := hx
    rcases List.mem_cons.mp ha with hae | hat <;> rcases List.mem_cons.mp hb with hbe | hbt
    · rw [hae, hbe]
    · exact absurd (by rw [← hab, hae] : b.sid = x.sid) (h1 b hbt)
    · exact absurd (by rw [hab, hbe] : a.sid = x.sid) (h1 a hat)
    · exact ih h2 hat hbt

theorem matchText_of_mem (M : List TranslateSentence) (s : TranslateSentence)
    (hnd : (M.map (fun a => a.sid)).Nodup) (hs : s ∈ M) :
    matchText M s.sid = s.text := by
  induction M with
  | nil => cases hs
  | cons a t ih =>
    have hx := hnd
    simp only [List.map_cons, List.nodup_cons, List.mem_map, not_exists, not_and] at hx
    obtain ⟨h1, h2⟩ := hx
    rcases List.mem_cons.mp hs with heq | hmem
    · subst heq
      simp [matchText, List.find?]
    · have has : ¬a.sid = s.sid := fun hh => h1 s hmem hh.symm
      have hbeq : (a.sid == s.sid) = false := by simpa using has
      simp only [matchText, List.find?, hbeq]
      exact ih h2 hmem

theorem lastTrOf_mem_sid (ts : List TranslationResult) (x : Str)
    (h : (lastTrOf ts x).isSome) : ∃ it ∈ ts, it.sid = x := by
  induction ts with
  | nil => simp [lastTrOf] at h
  | cons a rest ih =>
    simp only [lastTrOf] at h
    cases hl : lastTrOf rest x
    · rw [hl] at h
      by_cases hax : a.sid = x
      · exact ⟨a, List.mem_cons_self a rest, hax⟩
      · simp [hax] at h
    · obtain ⟨it, hit, hsid⟩ := ih (by simp [hl])
      exact ⟨it, List.mem_cons_of_mem a hit, hsid⟩

/-- Evaluation of a call whose fingerprints are all cached. -/
theorem translate_all_hits (model : Str) (tl : TargetLanguage)
    (ss : List TranslateSentence) (env : Env) (cache : SMap)
    (hc : env.cacheLoad = .ok cache) (hss : ss ≠ [])
    (hm : missingOf model tl cache ss = []) :
    openrouter_translate model tl ss env =
      { result := .ok (assembleOutput (hitsOf model tl cache ss) ss), requests := [],
        cacheLoads := 1, keyLoads := 0, saves := 0, savedCache := none,
        finalCache := some cache, finalResults := hitsOf model tl cache ss } := by
  have hssB : ss.isEmpty = false := by
    cases hse : ss.isEmpty
    · rfl
    · exact absurd (List.isEmpty_iff.mp hse) hss
  have hmB : (cacheSplit cache (cache_key model tl.code) ss []).2.isEmpty = true := by
    simp only [missingOf] at hm
    simp [hm]
  simp [openrouter_translate, hssB, hc, hmB, missingOf, hitsOf]

/-- C1 (amended): cache idempotence holds provided the sentence ids are
distinct and the decoded remote results only carry ids of miss sentences.
If a first call over loaded cache `cache` succeeds with output `out` and
resolves every sentence id, and a second call with the identical sentence
list, model and target language loads the cache state `C` left by the first
call, then the second call finds every fingerprint in the cache, issues zero
remote requests, and returns exactly `out`. -/
theorem translate_cache_idempotent (model : Str) (tl : TargetLanguage)
    (ss : List TranslateSentence) (env1 env2 : Env) (cache C : SMap)
    (out : List TranslationResult)
    (hnd : (ss.map (fun s => s.sid)).Nodup)
    (hc1 : env1.cacheLoad = .ok cache)
    (h1 : (openrouter_translate model tl ss env1).result = .ok out)
    (hres : ∀ s ∈ ss, ∃ r ∈ out, r.sid = s.sid)
    (hitems0 : ∀ c ts, env1.responses 0 = .ok c →
      parse_translation_json c = some (.ok ts) →
      ∀ it ∈ ts, it.sid ∈ (missingOf model tl cache ss).map (fun s => s.sid))
    (hitems1 : ∀ c ts, env1.responses 1 = .ok c →
      parse_translation_json c = some (.ok ts) →
      ∀ it ∈ ts, it.sid ∈ (missingOf model tl cache ss).map (fun s => s.sid))
    (hC : (openrouter_translate model tl ss env1).finalCache = some C)
    (hc2 : env2.cacheLoad = .ok C) :
    (∀ s ∈ ss, (alistGet C (cache_key model tl.code s.sid s.text)).isSome)
  ∧ (openrouter_translate model tl ss env2).requests = []
  ∧ (openrouter_translate model tl ss env2).result = .ok out := by
  by_cases hssnil : ss = []
  · subst hssnil
    refine ⟨fun s hs => absurd hs (List.not_mem_nil s), rfl, ?_⟩
    have h0 : CallResult.ok ([] : List TranslationResult) = CallResult.ok out := h1
    simp only [CallResult.ok.injEq] at h0
    rw [← h0]
    rfl
  · rcases translate_ok_cases model tl ss env1 out h1 with ⟨hss0, _⟩ |
      ⟨cache2, hc1b, hcase⟩
    · exact absurd hss0 hssnil
    · rw [hc1] at hc1b
      have hcc : cache = cache2 := by
        injection hc1b
      subst hcc
      rcases hcase with ⟨hm, hout⟩ | ⟨hm, k, ts, reqs, hk, hdec, hsv, hout⟩
      · -- every fingerprint was already a hit
        rw [hout] at hC h1
        simp only [Option.some.injEq] at hC
        subst hC
        simp only [CallResult.ok.injEq] at h1
        have hMeq : missingOf model tl cache ss =
            ss.filter (fun s =>
              (alistGet cache (cache_key model tl.code s.sid s.text)).isNone) := by
          simp [missingOf, cacheSplit_missing]
        have hAll : ∀ s ∈ ss,
            (alistGet cache (cache_key model tl.code s.sid s.text)).isSome := by
          intro s hs
          have hmn := hm
          rw [hMeq] at hmn
          have hns := List.filter_eq_nil_iff.mp hmn s hs
          cases hget : alistGet cache (cache_key model tl.code s.sid s.text)
          · exact absurd (by simp [hget]) hns
          · simp
        have ho2 := translate_all_hits model tl ss env2 cache hc2 hssnil hm
        rw [ho2]
        refine ⟨hAll, rfl, ?_⟩
        simp only [CallResult.ok.injEq]
        exact h1
      · -- a remote round trip happened; new entries cover every miss
        rw [hout] at hC h1
        simp only [Option.some.injEq] at hC
        simp only [CallResult.ok.injEq] at h1
        have hts : ∀ it ∈ ts, it.sid ∈
            (missingOf model tl cache ss).map (fun s => s.sid) := by
          rcases hdec with ⟨c, hr0, hp0, _⟩ | ⟨c, e1, c2, hr0, hp0, hr1, hp1, _⟩
          · exact hitems0 c ts hr0 hp0
          · exact hitems1 c2 ts hr1 hp1
        have hMeq : missingOf model tl cache ss =
            ss.filter (fun s =>
              (alistGet cache (cache_key model tl.code s.sid s.text)).isNone) := by
          simp [missingOf, cacheSplit_missing]
        have hndM : ((missingOf model tl cache ss).map (fun s => s.sid)).Nodup := by
          refine List.Nodup.sublist (List.Sublist.map _ ?_) hnd
          rw [hMeq]
          exact List.filter_sublist ss
        -- per-sentence: the final cache and the final results map agree
        have hmain : ∀ s ∈ ss, ∃ w,
            alistGet (applyTranslations model tl.code (missingOf model tl cache ss) ts
                cache (hitsOf model tl cache ss)).1
              (cache_key model tl.code s.sid s.text) = some w ∧
            alistGet (applyTranslations model tl.code (missingOf model tl cache ss) ts
                cache (hitsOf model tl cache ss)).2 s.sid = some w := by
          intro s hs
          by_cases hsM : s ∈ missingOf model tl cache ss
          · -- a miss: resolved, so some decoded item carries its id
            have hmiss_s : alistGet cache (cache_key model tl.code s.sid s.text) =
                none := by
              rw [hMeq] at hsM
              exact Option.isNone_iff_eq_none.mp (List.mem_filter.mp hsM).2
            have hRnone : alistGet (hitsOf model tl cache ss) s.sid = none := by
              refine cacheSplit_results_miss cache (cache_key model tl.code) ss [] s.sid
                ?_ rfl
              intro a ha hasid
              have : a = s := nodup_sid_inj ss hnd a s ha hs hasid
              rw [this]
              exact hmiss_s
            obtain ⟨r, hrmem, hrsid⟩ := hres s hs
            have hr2 : alistGet (applyTranslations model tl.code
                (missingOf model tl cache ss) ts cache (hitsOf model tl cache ss)).2
                s.sid = some r.translation := by
              have := mem_assembleOutput _ ss r (by rw [← h1] at hrmem; exact hrmem)
              rw [hrsid] at this
              exact this
            have hget2 := applyTranslations_results_get model tl.code
              (missingOf model tl cache ss) ts cache (hitsOf model tl cache ss) s.sid
            cases hl : lastTrOf ts s.sid with
            | none =>
              rw [hl, hRnone] at hget2
              rw [hget2] at hr2
              cases hr2
            | some w =>
              rw [hl] at hget2
              refine ⟨w, ?_, hget2⟩
              have hmt : matchText (missingOf model tl cache ss) s.sid = s.text :=
                matchText_of_mem _ s hndM hsM
              have hck := applyTranslations_cache_get_key model tl.code
                (missingOf model tl cache ss) ts cache (hitsOf model tl cache ss) s.sid
              rw [hmt, hl] at hck
              exact hck
          · -- a hit: the entry is untouched by the write-back
            have hsome : (alistGet cache
                (cache_key model tl.code s.sid s.text)).isSome := by
              cases hget : alistGet cache (cache_key model tl.code s.sid s.text)
              · exfalso
                apply hsM
                rw [hMeq]
                exact List.mem_filter.mpr ⟨hs, by simp [hget]⟩
              · simp
            obtain ⟨v, hv⟩ := Option.isSome_iff_exists.mp hsome
            have hnotts : ∀ it ∈ ts, it.sid ≠ s.sid := by
              intro it hit hsid
              obtain ⟨m, hmM, hmsid⟩ := List.mem_map.mp (hts it hit)
              have hmss : m ∈ ss := by
                rw [hMeq] at hmM
                exact (List.mem_filter.mp hmM).1
              have : m = s := nodup_sid_inj ss hnd m s hmss hs (by rw [hmsid, hsid])
              rw [this] at hmM
              exact hsM hmM
            have huntouched : ∀ it ∈ ts,
                cache_key model tl.code it.sid
                  (matchText (missingOf model tl cache ss) it.sid) ≠
                cache_key model tl.code s.sid s.text := by
              intro it hit heq
              exact hnotts it hit (cache_key_sid_inj model tl.code it.sid _ s.sid _ heq)
            have hCkey : alistGet (applyTranslations model tl.code
                (missingOf model tl cache ss) ts cache (hitsOf model tl cache ss)).1
                (cache_key model tl.code s.sid s.text) = some v := by
              rw [applyTranslations_cache_untouched model tl.code _ ts cache _ _
                huntouched]
              exact hv
            have hlastnone : lastTrOf ts s.sid = none := by
              cases hl : lastTrOf ts s.sid with
              | none => rfl
              | some w =>
                obtain ⟨it, hit, hsid⟩ := lastTrOf_mem_sid ts s.sid (by simp [hl])
                exact absurd hsid (hnotts it hit)
            have hR : alistGet (hitsOf model tl cache ss) s.sid = some v :=
              cacheSplit_results_hit cache (cache_key model tl.code) ss [] s v hnd hs hv
            have hget2 := applyTranslations_results_get model tl.code
              (missingOf model tl cache ss) ts cache (hitsOf model tl cache ss) s.sid
            rw [hlastnone, hR] at hget2
            exact ⟨v, hCkey, hget2⟩
        -- conclude
        have hAll : ∀ s ∈ ss,
            (alistGet C (cache_key model tl.code s.sid s.text)).isSome := by
          intro s hs
          obtain ⟨w, hw, _⟩ := hmain s hs
          rw [← hC]
          simp [hw]
        have hm2 : missingOf model tl C ss = [] := by
          have : missingOf model tl C ss =
              ss.filter (fun s =>
                (alistGet C (cache_key model tl.code s.sid s.text)).isNone) := by
            simp [missingOf, cacheSplit_missing]
          rw [this]
          refine List.filter_eq_nil_iff.mpr ?_
          intro s hs
          have := hAll s hs
          cases hget : alistGet C (cache_key model tl.code s.sid s.text)
          · rw [hget] at this
            cases this
          · simp [hget]
        have ho2 := translate_all_hits model tl ss env2 C hc2 hssnil hm2
        rw [ho2]
        refine ⟨hAll, rfl, ?_⟩
        simp only [CallResult.ok.injEq]
        rw [← h1]
        refine assembleOutput_congr _ _ ss ?_
        intro s hs
        obtain ⟨w, hw, hw2⟩ := hmain s hs
        rw [hw2]
        have hCw : alistGet C (cache_key model tl.code s.sid s.text) = some w := by
          rw [hC] at hw
          exact hw
        exact cacheSplit_results_hit C (cache_key model tl.code) ss [] s w hnd hs hCw

/-- The single-sentence list of the C1 witness. -/
def oneSentence : List TranslateSentence := [⟨str "a", str "t"⟩]

/-- The cache state left on disk by the C1 witness's first call. -/
def cacheAfter1 : SMap :=
  (openrouter_translate (str "m") enLang oneSentence (envOk [] respA)).finalCache.getD []

/-- Witness for C1 (amended): a first call misses, fetches and saves; the
second call over the saved cache is all-hit, issues no requests, and
returns the same output. -/
theorem translate_cache_idempotent_witness :
    (∀ s ∈ oneSentence,
      (alistGet cacheAfter1 (cache_key (str "m") enLang.code s.sid s.text)).isSome)
  ∧ (openrouter_translate (str "m") enLang oneSentence (envOk cacheAfter1 respA)).requests
      = []
  ∧ (openrouter_translate (str "m") enLang oneSentence (envOk cacheAfter1 respA)).result
      = .ok [⟨str "a", str "v"⟩] := by
  have hitems : ∀ c ts, (Except.ok respA : Except Str Str) = .ok c →
      parse_translation_json c = some (.ok ts) →
      ∀ it ∈ ts, it.sid ∈
        (missingOf (str "m") enLang [] oneSentence).map (fun s => s.sid) := by
    intro c ts hc hp
    injection hc with hc'
    subst hc'
    have h0 : parse_translation_json respA =
        some (.ok [⟨str "a", str "v"⟩]) := by decide
    rw [h0] at hp
    injection hp with hp'
    injection hp' with hp2
    subst hp2
    decide
  exact translate_cache_idempotent (str "m") enLang oneSentence
    (envOk [] respA) (envOk cacheAfter1 respA) [] cacheAfter1
    [⟨str "a", str "v"⟩] (by decide) rfl (by decide) (by decide)
    (fun c ts hc hp => hitems c ts hc hp)
    (fun c ts hc hp => hitems c ts hc hp)
    (by decide) rfl
